import Mathlib

/-!
A shallow embedding of the schema-inference and batched-write engine of
`sqlite_utils/db.py` (classes `Database` and `Table`, plus the `chunks`
helper), together with a model of the storage-engine boundary it consumes.

The storage engine is modelled after the Python `sqlite3` connection the
code runs against (Python >= 3.6 implicit-transaction semantics):
  * `execute` on a DML statement (INSERT) opens a transaction if none is
    open, leaving the change pending until `commit`;
  * `execute` on a DDL statement (CREATE TABLE / ALTER TABLE / DROP TABLE)
    outside an open transaction runs in autocommit mode and is durable
    immediately; inside an open transaction it joins the transaction;
  * a failing statement raises and leaves the database unchanged
    (per-statement atomicity, as in SQLite);
  * SQLite rejects a CREATE TABLE with an empty column list and a multi-row
    INSERT that violates a primary-key constraint fails as a whole.
-/

namespace SqliteUtils

/-- Scalar value of a record field: one of null, boolean, integer,
floating-point, text (the value domain of the data model). -/
inductive Value where
  | null
  | boolean (b : Bool)
  | integer (n : Int)
  | floating (q : ℚ)
  | text (s : String)
deriving DecidableEq

/-- The runtime kind of a value, i.e. what Python's `type(value)` returns
on the scalar domain: NoneType, bool, int, float or str. -/
inductive VKind where
  | null
  | boolean
  | integer
  | floating
  | text
deriving DecidableEq

def kindOf : Value → VKind
  | .null => .null
  | .boolean _ => .boolean
  | .integer _ => .integer
  | .floating _ => .floating
  | .text _ => .text

/-- A record: an ordered mapping from field name to scalar value
(a Python dict; keys are unique and insertion-ordered). -/
abbrev Record := List (String × Value)

/-- `record.get(key, None)`-style lookup, as an Option. -/
def rget (r : Record) (k : String) : Option Value :=
  (r.find? (fun p => p.1 == k)).map (fun p => p.2)

/-- Adding one element to a Python set of kinds, modelled as a
duplicate-free list in first-observation order. -/
def addKind (s : List VKind) (k : VKind) : List VKind :=
  if k ∈ s then s else s ++ [k]

/-- `all_column_types.setdefault(key, set()).add(type(value))` on one
(key, kind) observation. -/
def addObservation : List (String × List VKind) → String → VKind → List (String × List VKind)
  | [], k, v => [(k, [v])]
  | (k₀, s) :: rest, k, v =>
    if k₀ = k then (k₀, addKind s v) :: rest
    else (k₀, s) :: addObservation rest k v

/-- The first loop of `Table.detect_column_types`: the per-key sets of
observed value kinds, over all records. -/
def allColumnTypes (records : List Record) : List (String × List VKind) :=
  records.foldl (fun acc r => r.foldl (fun acc2 p => addObservation acc2 p.1 (kindOf p.2)) acc) []

/-- The reduction step of `Table.detect_column_types`: one Python type per
key.  `len(types) == 1` takes the unique element; otherwise the
`issuperset` ladder {int, bool} then {int, float, bool}, else str. -/
def reduceKinds (s : List VKind) : VKind :=
  match s with
  | [t] => t
  | _ =>
    if s.all (fun t => t == VKind.integer || t == VKind.boolean) then VKind.integer
    else if s.all (fun t => t == VKind.integer || t == VKind.floating || t == VKind.boolean) then
      VKind.floating
    else VKind.text

/-- `Table.detect_column_types(records)`. -/
def detect_column_types (records : List Record) : List (String × VKind) :=
  (allColumnTypes records).map (fun p => (p.1, reduceKinds p.2))

/-- The column-type keyword dictionary of `Database.create_table`:
float ↦ FLOAT, int ↦ INTEGER, bool ↦ INTEGER, str ↦ TEXT,
NoneType ↦ TEXT. -/
def colTypeKeyword : VKind → String
  | .floating => "FLOAT"
  | .integer => "INTEGER"
  | .boolean => "INTEGER"
  | .text => "TEXT"
  | .null => "TEXT"

/-- One stored table: its columns in declaration order (name, declared
type keyword), its primary-key column if declared, and its rows, each
aligned with `cols`. -/
structure TableData where
  cols : List (String × String)
  pk : Option String
  rows : List (List Value)
deriving DecidableEq

/-- The database: named tables in creation order. -/
abbrev DBState := List (String × TableData)

def getTable (db : DBState) (n : String) : Option TableData :=
  (db.find? (fun p => p.1 == n)).map (fun p => p.2)

def setTable (db : DBState) (n : String) (t : TableData) : DBState :=
  db.map (fun p => if p.1 == n then (n, t) else p)

/-- The errors surfaced by the storage engine, plus the Python
UnboundLocalError that `insert_all` raises when `result` is never
assigned. -/
inductive Err where
  | schemaError (msg : String)
  | writeError (msg : String)
  | nameError
deriving DecidableEq

/-- The statements the library issues against the engine. -/
inductive Stmt where
  | createTable (name : String) (cols : List (String × String)) (pk : Option String)
  | addColumnFK (table col colType otherTable otherCol : String)
  | dropTable (name : String)
  | insert (orReplace : Bool) (table : String) (cols : List String) (rows : List (List Value))
deriving DecidableEq

/-- Align the values bound for `stmtCols` with the table's column order;
columns of the table not named by the statement receive null. -/
def fullRow (tcols : List (String × String)) (stmtCols : List String) (vals : List Value) :
    List Value :=
  tcols.map (fun c =>
    match stmtCols.findIdx? (fun s => s == c.1) with
    | some i => vals.getD i Value.null
    | none => Value.null)

/-- Insert a single (already aligned) row: append, unless a declared
primary-key column collides with an existing row, in which case plain
INSERT fails and INSERT OR REPLACE deletes the old row and appends the
new one. -/
def insertOneRow (t : TableData) (orReplace : Bool) (row : List Value) : Except Err TableData :=
  match t.pk with
  | none => .ok { t with rows := t.rows ++ [row] }
  | some p =>
    match t.cols.findIdx? (fun c => c.1 == p) with
    | none => .ok { t with rows := t.rows ++ [row] }
    | some j =>
      if orReplace then
        .ok { t with rows :=
          t.rows.filter (fun r => !(r.getD j Value.null == row.getD j Value.null)) ++ [row] }
      else if t.rows.any (fun r => r.getD j Value.null == row.getD j Value.null) then
        .error (.writeError "UNIQUE constraint failed")
      else
        .ok { t with rows := t.rows ++ [row] }

/-- All rows of one multi-row INSERT, applied in order; statement-atomic
(any failure fails the whole statement). -/
def insertRows (t : TableData) (orReplace : Bool) (rows : List (List Value)) :
    Except Err TableData :=
  rows.foldlM (fun acc r => insertOneRow acc orReplace r) t

/-- Engine execution of one statement; on success returns the new database
and the statement's row count. -/
def execStmt (db : DBState) : Stmt → Except Err (DBState × Nat)
  | .createTable n cols pk =>
    if cols.isEmpty then .error (.schemaError "syntax error in zero-column CREATE TABLE")
    else if (getTable db n).isSome then .error (.schemaError "table already exists")
    else .ok (db ++ [(n, ⟨cols, pk, []⟩)], 0)
  | .addColumnFK tbl col colType _ _ =>
    match getTable db tbl with
    | none => .error (.schemaError "no such table")
    | some t =>
      if t.cols.any (fun c => c.1 == col) then .error (.schemaError "duplicate column name")
      else
        .ok (setTable db tbl
          { t with cols := t.cols ++ [(col, colType)],
                   rows := t.rows.map (fun r => r ++ [Value.null]) }, 0)
  | .dropTable n =>
    match getTable db n with
    | none => .error (.schemaError "no such table")
    | some _ => .ok (db.filter (fun p => !(p.1 == n)), 0)
  | .insert orReplace tbl cols rows =>
    match getTable db tbl with
    | none => .error (.schemaError "no such table")
    | some t =>
      if cols.isEmpty then .error (.schemaError "syntax error in zero-column INSERT")
      else if cols.any (fun c => !(t.cols.any (fun tc => tc.1 == c))) then
        .error (.schemaError "no such column")
      else
        match insertRows t orReplace (rows.map (fun r => fullRow t.cols cols r)) with
        | .error e => .error e
        | .ok t2 => .ok (setTable db tbl t2, rows.length)

def isDML : Stmt → Bool
  | .insert _ _ _ _ => true
  | _ => false

/-- A `sqlite3` connection: the live database view, the durably committed
database, and whether an implicit transaction is open. -/
structure Conn where
  db : DBState
  durable : DBState
  txnOpen : Bool
deriving DecidableEq

/-- `conn.execute(...)` under Python `sqlite3` implicit-transaction
semantics: DML opens/continues a transaction; DDL autocommits when no
transaction is open, otherwise joins it; failures change nothing. -/
def conn_execute (c : Conn) (s : Stmt) : Conn × Except Err Nat :=
  match execStmt c.db s with
  | .error e => (c, .error e)
  | .ok (db2, r) =>
    if isDML s then ({ db := db2, durable := c.durable, txnOpen := true }, .ok r)
    else if c.txnOpen then ({ db := db2, durable := c.durable, txnOpen := true }, .ok r)
    else ({ db := db2, durable := db2, txnOpen := false }, .ok r)

/-- `conn.commit()`. -/
def conn_commit (c : Conn) : Conn :=
  { db := c.db, durable := c.db, txnOpen := false }

/-- `Database.tables`: the table names visible on the connection. -/
def dbTables (c : Conn) : List String :=
  c.db.map (fun p => p.1)

/-- A fresh connection to an empty database. -/
def emptyConn : Conn := ⟨[], [], false⟩

/-- The in-process state of one `Table` object: its name and the cached
`self.exists` flag. -/
structure TableHandle where
  name : String
  tblExists : Bool
deriving DecidableEq

/-- `Table.__init__`: the flag is set by querying the table list once. -/
def Table.init (c : Conn) (name : String) : TableHandle :=
  ⟨name, (dbTables c).contains name⟩

/-- The column list of `Database.create_table`'s statement: each column
with its mapped storage keyword. -/
def createTableKeywordCols (columns : List (String × VKind)) : List (String × String) :=
  columns.map (fun p => (p.1, colTypeKeyword p.2))

/-- `Database.create_table(name, columns, pk)`: executes the CREATE TABLE
statement (no explicit commit in the source) and returns `self[name]`,
a fresh handle constructed against the current connection. -/
def Database.create_table (c : Conn) (name : String) (columns : List (String × VKind))
    (pk : Option String) : Conn × Except Err TableHandle :=
  let res := conn_execute c (.createTable name (createTableKeywordCols columns) pk)
  match res.2 with
  | .error e => (res.1, .error e)
  | .ok _ => (res.1, .ok (Table.init res.1 name))

/-- A foreign-key spec `(column, column_type, other_table, other_column)`. -/
structure FKSpec where
  column : String
  column_type : String
  other_table : String
  other_column : String
deriving DecidableEq

/-- `Table.add_foreign_key`: ALTER TABLE ADD COLUMN ... REFERENCES, then
`conn.commit()`; the handle itself is untouched. -/
def Table.add_foreign_key (c : Conn) (h : TableHandle) (fk : FKSpec) :
    Conn × TableHandle × Except Err Nat :=
  let res := conn_execute c (.addColumnFK h.name fk.column fk.column_type fk.other_table
    fk.other_column)
  match res.2 with
  | .error e => (res.1, h, .error e)
  | .ok r => (conn_commit res.1, h, .ok r)

/-- The foreign-key loop of `Table.create`, applying the specs in order
and propagating the first failure. -/
def addFKs (c : Conn) (h : TableHandle) : List FKSpec → Conn × Except Err Unit
  | [] => (c, .ok ())
  | fk :: rest =>
    match Table.add_foreign_key c h fk with
    | (c2, _, .error e) => (c2, .error e)
    | (c2, _, .ok _) => addFKs c2 h rest

/-- `Table.create(columns, pk, foreign_keys)`: drops every column claimed
by a foreign-key spec, creates the table, applies the foreign keys in
order, then sets `self.exists = True`. -/
def Table.create (c : Conn) (h : TableHandle) (columns : List (String × VKind))
    (pk : Option String) (foreign_keys : List FKSpec) : Conn × TableHandle × Except Err Unit :=
  let ct := Database.create_table c h.name
    (columns.filter (fun p => !(foreign_keys.any (fun fk => fk.column == p.1)))) pk
  match ct.2 with
  | .error e => (ct.1, h, .error e)
  | .ok _ =>
    let fkr := addFKs ct.1 h foreign_keys
    match fkr.2 with
    | .error e => (fkr.1, h, .error e)
    | .ok _ => (fkr.1, { h with tblExists := true }, .ok ())

/-- `Table.drop`: executes DROP TABLE; the cached flag is not updated. -/
def Table.drop (c : Conn) (h : TableHandle) : Conn × TableHandle × Except Err Nat :=
  let res := conn_execute c (.dropTable h.name)
  (res.1, h, res.2)

/-- The `chunks(sequence, size)` generator, with an explicit fuel argument
(any fuel at least the list length gives the slicing semantics; structural
recursion keeps the definition computable by the kernel). -/
def chunksFuel : Nat → List α → Nat → List (List α)
  | 0, _, _ => []
  | _ + 1, _, 0 => []
  | _ + 1, [], _ + 1 => []
  | fuel + 1, a :: as, n + 1 =>
    (a :: as).take (n + 1) :: chunksFuel fuel ((a :: as).drop (n + 1)) (n + 1)

/-- The `chunks(sequence, size)` generator: consecutive slices of at most
`size` elements, `sequence[i : i + size]` for `i in range(0, len, size)`.
(Python raises on step 0; callers always pass size >= 1.) -/
def chunksList (l : List α) (size : Nat) : List (List α) :=
  chunksFuel l.length l size

/-- The values one record binds in a chunk statement:
`record.get(key, None) for key in all_columns`. -/
def projRecord (cols : List String) (r : Record) : List Value :=
  cols.map (fun k => (rget r k).getD Value.null)

/-- Lexicographic comparison of character lists by code point, the order
Python's `sorted` uses on strings. -/
def charListLe : List Char → List Char → Bool
  | [], _ => true
  | _ :: _, [] => false
  | a :: as, b :: bs =>
    if a.toNat < b.toNat then true
    else if b.toNat < a.toNat then false
    else charListLe as bs

/-- Lexicographic string comparison by code point. -/
def strLe (a b : String) : Bool := charListLe a.data b.data

/-- `all_columns` of `Table.insert_all`: the sorted union of the keys of
every record of the full input list (`sorted(set(...))`). -/
def allColumns (records : List Record) : List String :=
  List.insertionSort (fun a b => strLe a b = true)
    ((records.map (fun r => r.map (fun p => p.1))).flatten.dedup)

/-- The single multi-row INSERT statement built for one chunk. -/
def chunkStmt (tableName : String) (upsert : Bool) (cols : List String)
    (chunk : List Record) : Stmt :=
  .insert upsert tableName cols (chunk.map (projRecord cols))

/-- The statements `Table.insert_all` issues: one per chunk, all sharing
the one `all_columns` list computed from the full input. -/
def insertStmts (tableName : String) (upsert : Bool) (records : List Record)
    (batch_size : Nat) : List Stmt :=
  (chunksList records batch_size).map (chunkStmt tableName upsert (allColumns records))

/-- The chunk loop of `Table.insert_all`: execute a chunk, commit, keep
the last result; with no chunk at all, `return result` raises
(UnboundLocalError, modelled as `Err.nameError`). -/
def runChunkStmts : Conn → List Stmt → Option Nat → Conn × Except Err Nat
  | c, [], none => (c, .error .nameError)
  | c, [], some r => (c, .ok r)
  | c, s :: rest, _ =>
    match conn_execute c s with
    | (c2, .error e) => (c2, .error e)
    | (c2, .ok r) => runChunkStmts (conn_commit c2) rest (some r)

/-- `Table.insert_all(records, pk, foreign_keys, upsert, batch_size)`. -/
def Table.insert_all (c : Conn) (h : TableHandle) (records : List Record) (pk : Option String)
    (foreign_keys : List FKSpec) (upsert : Bool) (batch_size : Nat) :
    Conn × TableHandle × Except Err Nat :=
  let step1 :=
    if h.tblExists then (c, h, Except.ok ())
    else Table.create c h (detect_column_types records) pk foreign_keys
  match step1.2.2 with
  | .error e => (step1.1, step1.2.1, .error e)
  | .ok _ =>
    let run := runChunkStmts step1.1 (insertStmts (step1.2.1).name upsert records batch_size) none
    (run.1, step1.2.1, run.2)

/-- `Table.insert(record, ...)`: a single-record batch. -/
def Table.insert (c : Conn) (h : TableHandle) (record : Record) (pk : Option String)
    (foreign_keys : List FKSpec) (upsert : Bool) : Conn × TableHandle × Except Err Nat :=
  Table.insert_all c h [record] pk foreign_keys upsert 100

/-- `Table.upsert`. -/
def Table.upsert (c : Conn) (h : TableHandle) (record : Record) (pk : Option String)
    (foreign_keys : List FKSpec) : Conn × TableHandle × Except Err Nat :=
  Table.insert c h record pk foreign_keys true

/-- `Table.upsert_all`. -/
def Table.upsert_all (c : Conn) (h : TableHandle) (records : List Record) (pk : Option String)
    (foreign_keys : List FKSpec) : Conn × TableHandle × Except Err Nat :=
  Table.insert_all c h records pk foreign_keys true 100

/-- The prefix of the chunk loop that executed and committed successfully;
`none` when some step of the given statement list fails. -/
def runPrefixOk : Conn → List Stmt → Option Conn
  | c, [] => some c
  | c, s :: rest =>
    match conn_execute c s with
    | (_, .error _) => none
    | (c2, .ok _) => runPrefixOk (conn_commit c2) rest

/-- Lookup in an association list with String keys. -/
def lookupTy (l : List (String × α)) (k : String) : Option α :=
  (l.find? (fun p => p.1 == k)).map (fun p => p.2)

deriving instance DecidableEq for Except

/-- Whether an Except is a success. -/
def exOk : Except ε α → Bool
  | .ok _ => true
  | .error _ => false

/-- The column list of an INSERT statement. -/
def stmtColsOf : Stmt → List String
  | .insert _ _ cols _ => cols
  | _ => []

/-- The bound rows of an INSERT statement. -/
def stmtRowsOf : Stmt → List (List Value)
  | .insert _ _ _ rows => rows
  | _ => []

/-- First step of the C8 scenario: insert a row with primary key 1. -/
def upsertStep1 : Conn × TableHandle × Except Err Nat :=
  Table.insert emptyConn (Table.init emptyConn "t")
    [("id", Value.integer 1), ("v", Value.text "a")] (some "id") [] false

/-- Second step of the C8 scenario: upsert a conflicting row. -/
def upsertStep2 : Conn × TableHandle × Except Err Nat :=
  Table.upsert upsertStep1.1 upsertStep1.2.1
    [("id", Value.integer 1), ("v", Value.text "b")] (some "id") []

/-- Connection of the C9 two-handle scenario, with table t created. -/
def c9conn : Conn := (Database.create_table emptyConn "t" [("a", VKind.integer)] none).1

/-- First handle of the C9 scenario. -/
def c9h1 : TableHandle := Table.init c9conn "t"

/-- Second handle of the C9 scenario. -/
def c9h2 : TableHandle := Table.init c9conn "t"

/-- Result of dropping the table through the second handle. -/
def c9afterDrop : Conn × TableHandle × Except Err Nat := Table.drop c9conn c9h2

theorem conn_execute_err (c : Conn) (s : Stmt) (e : Err) (hex : execStmt c.db s = .error e) :
    conn_execute c s = (c, .error e) := by
  simp [conn_execute, hex]

theorem conn_execute_ddl_commit (c : Conn) (s : Stmt) (db2 : DBState) (r : Nat)
    (hTxn : c.txnOpen = false) (hDml : isDML s = false) (hex : execStmt c.db s = .ok (db2, r)) :
    conn_execute c s = (⟨db2, db2, false⟩, .ok r) := by
  simp [conn_execute, hex, hDml, hTxn]

theorem conn_execute_ok_parts (c : Conn) (s : Stmt) (db2 : DBState) (r : Nat)
    (hex : execStmt c.db s = .ok (db2, r)) :
    (conn_execute c s).1.db = db2 ∧ (conn_execute c s).2 = .ok r := by
  simp only [conn_execute, hex]
  split_ifs <;> simp

theorem getTable_append (db : DBState) (n : String) (t : TableData)
    (hnone : getTable db n = none) : getTable (db ++ [(n, t)]) n = some t := by
  have h1 : db.find? (fun q => q.1 == n) = none := by
    simpa [getTable, Option.map_eq_none'] using hnone
  simp [getTable, List.find?_append, h1]

theorem getTable_cons_hit (p : String × TableData) (rest : DBState) (n : String)
    (hb : (p.1 == n) = true) : getTable (p :: rest) n = some p.2 := by
  simp [getTable, List.find?_cons, hb]

theorem getTable_cons_miss (p : String × TableData) (rest : DBState) (n : String)
    (hb : (p.1 == n) = false) : getTable (p :: rest) n = getTable rest n := by
  simp [getTable, List.find?_cons, hb]

theorem setTable_cons (p : String × TableData) (rest : DBState) (n : String) (t : TableData) :
    setTable (p :: rest) n t = (if p.1 == n then (n, t) else p) :: setTable rest n t := rfl

theorem getTable_setTable (db : DBState) (n : String) (t0 t : TableData)
    (hsome : getTable db n = some t0) : getTable (setTable db n t) n = some t := by
  induction db with
  | nil => simp [getTable] at hsome
  | cons p rest ih =>
    rw [setTable_cons]
    cases hb : p.1 == n with
    | true =>
      simp only [if_pos (rfl : true = true)]
      exact getTable_cons_hit (n, t) _ n (by simp)
    | false =>
      rw [getTable_cons_miss p _ n hb] at hsome
      simp only [if_neg (by simp : ¬(false = true))]
      rw [getTable_cons_miss p _ n hb]
      exact ih hsome

theorem setTable_setTable (db : DBState) (n : String) (t1 t2 : TableData) :
    setTable (setTable db n t1) n t2 = setTable db n t2 := by
  induction db with
  | nil => rfl
  | cons p rest ih =>
    rw [setTable_cons, setTable_cons, setTable_cons, ih]
    cases hb : p.1 == n with
    | true => simp
    | false => simp [hb]

theorem insertOneRow_cols (t : TableData) (bR : Bool) (row : List Value) (t2 : TableData)
    (hok : insertOneRow t bR row = .ok t2) : t2.cols = t.cols ∧ t2.pk = t.pk := by
  unfold insertOneRow at hok
  split at hok
  · injection hok with h
    subst h
    exact ⟨rfl, rfl⟩
  · split at hok
    · injection hok with h
      subst h
      exact ⟨rfl, rfl⟩
    · split_ifs at hok with h1 h2
      · injection hok with h
        subst h
        exact ⟨rfl, rfl⟩
      · injection hok with h
        subst h
        exact ⟨rfl, rfl⟩

theorem insertRows_cols : ∀ (rows : List (List Value)) (t t2 : TableData) (bR : Bool),
    insertRows t bR rows = .ok t2 → t2.cols = t.cols ∧ t2.pk = t.pk
  | [], t, t2, bR, h => by
    simp only [insertRows, List.foldlM_nil, pure, Except.pure, Except.ok.injEq] at h
    subst h
    exact ⟨rfl, rfl⟩
  | r :: rows, t, t2, bR, h => by
    simp only [insertRows, List.foldlM_cons] at h
    cases h1 : insertOneRow t bR r with
    | error e => rw [h1] at h; simp [Bind.bind, Except.bind] at h
    | ok t1 =>
      rw [h1] at h
      simp only [Bind.bind, Except.bind] at h
      have h2 := insertRows_cols rows t1 t2 bR h
      have h3 := insertOneRow_cols t bR r t1 h1
      exact ⟨h2.1.trans h3.1, h2.2.trans h3.2⟩

/-- C6: both schema operations durably commit: a successful create-table
leaves the connection fully committed with the new table durably present
and returns a handle whose cached flag is true; a successful
add-foreign-key leaves the connection fully committed with the new column
durably present on the table; and a successful `Table.create` sets the
owning handle's cached existence flag to true. -/
theorem C6_schema_ops_commit :
    (∀ c name columns pk, c.txnOpen = false →
      exOk (Database.create_table c name columns pk).2 = true →
      (Database.create_table c name columns pk).1.durable =
          (Database.create_table c name columns pk).1.db ∧
        (getTable (Database.create_table c name columns pk).1.durable name).isSome = true ∧
        (∀ ht, (Database.create_table c name columns pk).2 = .ok ht → ht.tblExists = true)) ∧
    (∀ c h fk, exOk (Table.add_foreign_key c h fk).2.2 = true →
      (Table.add_foreign_key c h fk).1.durable = (Table.add_foreign_key c h fk).1.db ∧
        ∃ t, getTable (Table.add_foreign_key c h fk).1.durable h.name = some t ∧
          t.cols.any (fun p => p.1 == fk.column) = true) ∧
    (∀ c h columns pk fks, exOk (Table.create c h columns pk fks).2.2 = true →
      ((Table.create c h columns pk fks).2.1).tblExists = true) := by
  refine ⟨?_, ?_, ?_⟩
  · intro c name columns pk hTxn hok
    cases hex : execStmt c.db (Stmt.createTable name (createTableKeywordCols columns) pk) with
    | error e =>
      simp [Database.create_table, conn_execute_err _ _ _ hex, exOk] at hok
    | ok pr =>
      obtain ⟨db2, r⟩ := pr
      have hconn := conn_execute_ddl_commit c
        (Stmt.createTable name (createTableKeywordCols columns) pk) db2 r hTxn rfl hex
      simp only [execStmt] at hex
      split_ifs at hex with h1 h2
      have hnone : getTable c.db name = none := Option.not_isSome_iff_eq_none.mp h2
      simp only [Except.ok.injEq, Prod.mk.injEq] at hex
      obtain ⟨hdb2, hr⟩ := hex
      subst hdb2
      refine ⟨?_, ?_, ?_⟩
      · simp [Database.create_table, hconn]
      · simp only [Database.create_table, hconn]
        rw [getTable_append c.db name _ hnone]
        rfl
      · intro ht hht
        simp only [Database.create_table, hconn, Except.ok.injEq] at hht
        subst hht
        show ((dbTables _).contains name) = true
        have hmem : name ∈ (c.db ++ [(name, (⟨createTableKeywordCols columns, pk, []⟩ :
            TableData))]).map (fun p => p.1) := by simp
        simpa [dbTables] using List.elem_eq_true_of_mem hmem
  · intro c h fk hok
    cases hex : execStmt c.db
        (Stmt.addColumnFK h.name fk.column fk.column_type fk.other_table fk.other_column) with
    | error e =>
      simp [Table.add_foreign_key, conn_execute_err _ _ _ hex, exOk] at hok
    | ok pr =>
      obtain ⟨db2, r⟩ := pr
      obtain ⟨hdb, hres⟩ := conn_execute_ok_parts c _ db2 r hex
      cases hT : getTable c.db h.name with
      | none =>
        simp only [execStmt, hT] at hex
        exact absurd hex (by simp)
      | some t =>
        simp only [execStmt, hT] at hex
        split_ifs at hex with hdup
        have hdb2 : db2 = setTable c.db h.name
            { t with cols := t.cols ++ [(fk.column, fk.column_type)],
                     rows := t.rows.map (fun r => r ++ [Value.null]) } := by
          simp only [Except.ok.injEq, Prod.mk.injEq] at hex
          exact hex.1.symm
        refine ⟨?_, ?_⟩
        · simp [Table.add_foreign_key, hres, conn_commit]
        · simp only [Table.add_foreign_key, hres]
          refine ⟨?_, ?_, ?_⟩
          · exact { t with cols := t.cols ++ [(fk.column, fk.column_type)],
                           rows := t.rows.map (fun r => r ++ [Value.null]) }
          · show getTable (conn_commit (conn_execute c _).1).durable h.name = _
            rw [show (conn_commit (conn_execute c _).1).durable =
                (conn_execute c _).1.db from rfl, hdb, hdb2]
            exact getTable_setTable c.db h.name t _ hT
          · simp
  · intro c h columns pk fks hok
    cases hct : (Database.create_table c h.name
        (columns.filter (fun p => !(fks.any (fun fk => fk.column == p.1)))) pk).2 with
    | error e => simp [Table.create, hct, exOk] at hok
    | ok u =>
      cases hfk : (addFKs (Database.create_table c h.name
          (columns.filter (fun p => !(fks.any (fun fk => fk.column == p.1)))) pk).1 h fks).2 with
      | error e => simp [Table.create, hct, hfk, exOk] at hok
      | ok u2 => simp [Table.create, hct, hfk]

theorem create_table_ok_shape (c : Conn) (name : String) (columns : List (String × VKind))
    (pk : Option String) (hok : exOk (Database.create_table c name columns pk).2 = true) :
    getTable (Database.create_table c name columns pk).1.db name =
      some ⟨createTableKeywordCols columns, pk, []⟩ := by
  cases hex : execStmt c.db (Stmt.createTable name (createTableKeywordCols columns) pk) with
  | error e => simp [Database.create_table, conn_execute_err _ _ _ hex, exOk] at hok
  | ok pr =>
    obtain ⟨db2, r⟩ := pr
    obtain ⟨hdb, hres⟩ := conn_execute_ok_parts c _ db2 r hex
    simp only [execStmt] at hex
    split_ifs at hex with h1 h2
    have hnone : getTable c.db name = none := Option.not_isSome_iff_eq_none.mp h2
    simp only [Except.ok.injEq, Prod.mk.injEq] at hex
    obtain ⟨hdb2, hr⟩ := hex
    simp only [Database.create_table, hres]
    rw [hdb, ← hdb2]
    exact getTable_append c.db name _ hnone

theorem add_foreign_key_ok (c : Conn) (h : TableHandle) (fk : FKSpec) (t : TableData)
    (hT : getTable c.db h.name = some t)
    (hok : exOk (Table.add_foreign_key c h fk).2.2 = true) :
    ∃ c2, Table.add_foreign_key c h fk = (c2, h, .ok 0) ∧
      getTable c2.db h.name =
        some { t with cols := t.cols ++ [(fk.column, fk.column_type)],
                      rows := t.rows.map (fun r => r ++ [Value.null]) } := by
  cases hex : execStmt c.db
      (Stmt.addColumnFK h.name fk.column fk.column_type fk.other_table fk.other_column) with
  | error e => simp [Table.add_foreign_key, conn_execute_err _ _ _ hex, exOk] at hok
  | ok pr =>
    obtain ⟨db2, r⟩ := pr
    obtain ⟨hdb, hres⟩ := conn_execute_ok_parts c _ db2 r hex
    simp only [execStmt, hT] at hex
    split_ifs at hex with hdup
    simp only [Except.ok.injEq, Prod.mk.injEq] at hex
    obtain ⟨hdb2, hr⟩ := hex
    subst hr
    refine ⟨conn_commit (conn_execute c (Stmt.addColumnFK h.name fk.column fk.column_type
      fk.other_table fk.other_column)).1, by simp only [Table.add_foreign_key, hres], ?_⟩
    show getTable (conn_execute c _).1.db h.name = _
    rw [hdb, ← hdb2]
    exact getTable_setTable c.db h.name t _ hT

theorem addFKs_ok_cols : ∀ (fks : List FKSpec) (c : Conn) (h : TableHandle) (t : TableData),
    getTable c.db h.name = some t → exOk (addFKs c h fks).2 = true →
    ∃ t2, getTable (addFKs c h fks).1.db h.name = some t2 ∧
      t2.cols = t.cols ++ fks.map (fun fk => (fk.column, fk.column_type)) ∧ t2.pk = t.pk
  | [], c, h, t, hT, _ => ⟨t, by simpa [addFKs] using hT, by simp, rfl⟩
  | fk :: rest, c, h, t, hT, hok => by
    by_cases hA : exOk (Table.add_foreign_key c h fk).2.2 = true
    · obtain ⟨c2, heq, hgt⟩ := add_foreign_key_ok c h fk t hT hA
      have hred : addFKs c h (fk :: rest) = addFKs c2 h rest := by
        simp [addFKs, heq]
      rw [hred] at hok ⊢
      obtain ⟨t2, h1, h2, h3⟩ := addFKs_ok_cols rest c2 h _ hgt hok
      refine ⟨t2, h1, ?_, h3⟩
      rw [h2]
      simp [List.append_assoc]
    · rcases hF : Table.add_foreign_key c h fk with ⟨c2, h2, res⟩
      cases res with
      | ok r => rw [hF] at hA; simp [exOk] at hA
      | error e => simp [addFKs, hF, exOk] at hok

/-- C7: `Table.create` excludes every field claimed by a foreign-key spec
from the creation statement's column list, then adds one column per
foreign-key spec, in the order the specs were given and with the spec's
own type: on success the resulting table's columns are exactly the
keyword-mapped non-claimed columns followed by the foreign-key columns,
and no claimed name occurs among the created (non-foreign-key) columns. -/
theorem C7_foreign_key_exclusion (c : Conn) (h : TableHandle) (columns : List (String × VKind))
    (pk : Option String) (fks : List FKSpec)
    (hok : exOk (Table.create c h columns pk fks).2.2 = true) :
    ∃ t, getTable (Table.create c h columns pk fks).1.db h.name = some t ∧
      t.cols =
        createTableKeywordCols
            (columns.filter (fun p => !(fks.any (fun fk => fk.column == p.1)))) ++
          fks.map (fun fk => (fk.column, fk.column_type)) ∧
      ∀ fk ∈ fks, ∀ q ∈ createTableKeywordCols
          (columns.filter (fun p => !(fks.any (fun fk2 => fk2.column == p.1)))),
        q.1 ≠ fk.column := by
  cases hct : (Database.create_table c h.name
      (columns.filter (fun p => !(fks.any (fun fk => fk.column == p.1)))) pk).2 with
  | error e => simp [Table.create, hct, exOk] at hok
  | ok ht =>
    have hT0 := create_table_ok_shape c h.name
      (columns.filter (fun p => !(fks.any (fun fk => fk.column == p.1)))) pk
      (by simp [hct, exOk])
    rcases hfk : addFKs (Database.create_table c h.name
        (columns.filter (fun p => !(fks.any (fun fk => fk.column == p.1)))) pk).1 h fks with
      ⟨c3, res3⟩
    cases res3 with
    | error e =>
      simp only [Table.create, hct, hfk, exOk] at hok
      exact absurd hok (by simp)
    | ok u =>
      obtain ⟨t2, hgt, hcols, hpk⟩ := addFKs_ok_cols fks (Database.create_table c h.name
          (columns.filter (fun p => !(fks.any (fun fk => fk.column == p.1)))) pk).1 h
        ⟨createTableKeywordCols (columns.filter
          (fun p => !(fks.any (fun fk => fk.column == p.1)))), pk, []⟩ hT0
        (by simp [hfk, exOk])
      rw [hfk] at hgt
      refine ⟨t2, ?_, by simpa using hcols, ?_⟩
      · simpa [Table.create, hct, hfk] using hgt
      · intro fk hfkmem q hq
        simp only [createTableKeywordCols, List.mem_map] at hq
        obtain ⟨p, hp, hqe⟩ := hq
        simp only [List.mem_filter] at hp
        obtain ⟨hp1, hp2⟩ := hp
        subst hqe
        simp only [Bool.not_eq_true', List.any_eq_false] at hp2
        have hne := hp2 fk hfkmem
        exact fun hcontr => hne (by simp only [beq_iff_eq]; exact hcontr.symm)

/-- Witness for C7 at the spec's concrete example. -/
theorem C7_foreign_key_exclusion_witness :
    ∃ t, getTable ((Table.create emptyConn (Table.init emptyConn "t")
        [("a", VKind.integer), ("b", VKind.integer)] none
        [⟨"b", "INTEGER", "other", "id"⟩]).1.db) "t" = some t ∧
      t.cols =
        createTableKeywordCols
            ([("a", VKind.integer), ("b", VKind.integer)].filter
              (fun p => !([(⟨"b", "INTEGER", "other", "id"⟩ : FKSpec)].any
                (fun fk => fk.column == p.1)))) ++
          [(⟨"b", "INTEGER", "other", "id"⟩ : FKSpec)].map
            (fun fk => (fk.column, fk.column_type)) ∧
      ∀ fk ∈ [(⟨"b", "INTEGER", "other", "id"⟩ : FKSpec)], ∀ q ∈ createTableKeywordCols
          ([("a", VKind.integer), ("b", VKind.integer)].filter
            (fun p => !([(⟨"b", "INTEGER", "other", "id"⟩ : FKSpec)].any
              (fun fk2 => fk2.column == p.1)))),
        q.1 ≠ fk.column :=
  C7_foreign_key_exclusion emptyConn (Table.init emptyConn "t")
    [("a", VKind.integer), ("b", VKind.integer)] none [⟨"b", "INTEGER", "other", "id"⟩]
    (by decide)

/-- Witness for C6 at a concrete input (the create-table part). -/
theorem C6_schema_ops_commit_witness :
    (Database.create_table emptyConn "t" [("a", VKind.integer)] none).1.durable =
        (Database.create_table emptyConn "t" [("a", VKind.integer)] none).1.db ∧
      (getTable (Database.create_table emptyConn "t" [("a", VKind.integer)] none).1.durable
          "t").isSome = true ∧
      (∀ ht, (Database.create_table emptyConn "t" [("a", VKind.integer)] none).2 = .ok ht →
        ht.tblExists = true) :=
  C6_schema_ops_commit.1 emptyConn "t" [("a", VKind.integer)] none rfl (by decide)

/-- C10: on a handle whose table is already present, `insert_all` with an
empty record list runs zero chunks, so the final `return result` raises
(the local `result` was never assigned); nothing is executed and the
connection, hence the table contents, is left unchanged. -/
theorem C10_empty_records_existing_table (c : Conn) (h : TableHandle) (pk : Option String)
    (fks : List FKSpec) (up : Bool) (bs : Nat) (hx : h.tblExists = true) :
    Table.insert_all c h [] pk fks up bs = (c, h, .error Err.nameError) := by
  cases bs <;> simp [Table.insert_all, hx, insertStmts, chunksList, runChunkStmts]

/-- Witness for C10 at a concrete input. -/
theorem C10_empty_records_existing_table_witness :
    Table.insert_all emptyConn ⟨"t", true⟩ [] none [] false 100 =
      (emptyConn, ⟨"t", true⟩, .error Err.nameError) :=
  C10_empty_records_existing_table emptyConn ⟨"t", true⟩ none [] false 100 rfl

/-- C2 counterexample: on a fresh (absent) handle, `insert_all` with an
empty record list does raise an error — the lazy create runs with an
empty inferred column mapping and the engine rejects the zero-column
CREATE TABLE — contradicting the claim that no error is raised. -/
theorem C2_counterexample :
    exOk (Table.insert_all emptyConn (Table.init emptyConn "t") [] none [] false 100).2.2 =
      false := by decide

/-- C2 (amended): an empty `records` input to a first-ever call creates no
table, writes nothing and leaves the handle absent — the connection and
handle come back unchanged — but it raises an error rather than returning
normally: the attempted creation statement has zero columns and the
engine rejects it. -/
theorem C2_empty_records_absent_table (c : Conn) (h : TableHandle) (pk : Option String)
    (fks : List FKSpec) (up : Bool) (bs : Nat) (hx : h.tblExists = false) :
    Table.insert_all c h [] pk fks up bs =
      (c, h, .error (Err.schemaError "syntax error in zero-column CREATE TABLE")) := by
  simp [Table.insert_all, hx, Table.create, Database.create_table, detect_column_types,
    allColumnTypes, createTableKeywordCols, conn_execute, execStmt, Table.init]

/-- Witness for C2's amended theorem at a concrete input. -/
theorem C2_empty_records_absent_table_witness :
    (Table.init emptyConn "t").tblExists = false ∧
    Table.insert_all emptyConn (Table.init emptyConn "t") [] none [] false 100 =
      (emptyConn, Table.init emptyConn "t",
        .error (Err.schemaError "syntax error in zero-column CREATE TABLE")) :=
  ⟨by decide, C2_empty_records_absent_table emptyConn (Table.init emptyConn "t") none [] false 100
    (by decide)⟩

/-- C8: with `upsert` set, a write whose primary key conflicts with an
existing row fully replaces that row: after inserting id 1, v "a" and
upserting id 1, v "b" with id as primary key, exactly one row remains and
it is id 1, v "b" — both on the live view and durably. -/
theorem C8_upsert_replaces_row :
    (getTable upsertStep1.1.db "t").map TableData.rows =
      some [[Value.integer 1, Value.text "a"]] ∧
    (getTable upsertStep2.1.db "t").map TableData.rows =
      some [[Value.integer 1, Value.text "b"]] ∧
    (getTable upsertStep2.1.durable "t").map TableData.rows =
      some [[Value.integer 1, Value.text "b"]] ∧
    exOk upsertStep2.2.2 = true := by decide

/-- C9: a handle's cached existence flag never goes from present to
absent: it is set only at construction (from the table list) and on
successful create; `drop` and `add_foreign_key` leave the handle
untouched, `create` and `insert_all` never clear a set flag; and in the
two-handle scenario, after a successful drop through the second handle
the first handle still reports present while the table list no longer
contains the table. -/
theorem C9_exists_flag_never_cleared :
    (∀ c name, (Table.init c name).tblExists = (dbTables c).contains name) ∧
    (∀ c h, (Table.drop c h).2.1 = h) ∧
    (∀ c h fk, (Table.add_foreign_key c h fk).2.1 = h) ∧
    (∀ c h cols pk fks, h.tblExists = true →
      ((Table.create c h cols pk fks).2.1).tblExists = true) ∧
    (∀ c h records pk fks up bs, h.tblExists = true →
      ((Table.insert_all c h records pk fks up bs).2.1).tblExists = true) ∧
    (c9h1.tblExists = true ∧ exOk c9afterDrop.2.2 = true ∧
      (dbTables c9afterDrop.1).contains "t" = false ∧ c9afterDrop.2.1 = c9h2) := by
  refine ⟨fun c name => rfl, fun c h => rfl, ?_, ?_, ?_, by decide⟩
  · intro c h fk
    simp only [Table.add_foreign_key]
    split <;> rfl
  · intro c h cols pk fks hx
    simp only [Table.create]
    split
    · exact hx
    · split
      · exact hx
      · rfl
  · intro c h records pk fks up bs hx
    simp [Table.insert_all, hx]

/-- Witness for C9 at a concrete input (the create-monotonicity part). -/
theorem C9_exists_flag_never_cleared_witness :
    ((Table.create emptyConn ⟨"t", true⟩ [("a", VKind.integer)] none []).2.1).tblExists = true :=
  C9_exists_flag_never_cleared.2.2.2.1 emptyConn ⟨"t", true⟩ [("a", VKind.integer)] none [] rfl

theorem lookupTy_map (l : List (String × α)) (f : α → β) (k : String) :
    lookupTy (l.map (fun p => (p.1, f p.2))) k = (lookupTy l k).map f := by
  induction l with
  | nil => rfl
  | cons p rest ih =>
    cases hb : p.1 == k with
    | true => simp [lookupTy, List.find?_cons, hb]
    | false => simpa [lookupTy, List.find?_cons, hb] using ih

theorem lookupTy_mem (l : List (String × α)) (k : String) (v : α)
    (h : lookupTy l k = some v) : ∃ k2, (k2, v) ∈ l := by
  induction l with
  | nil => simp [lookupTy] at h
  | cons p rest ih =>
    cases hb : p.1 == k with
    | true =>
      simp only [lookupTy, List.find?_cons, hb, Option.map_some'] at h
      have hv : p.2 = v := by injection h
      exact ⟨p.1, by rw [← hv]; simp⟩
    | false =>
      simp only [lookupTy, List.find?_cons, hb] at h
      obtain ⟨k2, hk2⟩ := ih h
      exact ⟨k2, List.mem_cons_of_mem _ hk2⟩

theorem addKind_ne_nil (s : List VKind) (k : VKind) : addKind s k ≠ [] := by
  unfold addKind
  split
  · next hmem =>
      intro hnil
      subst hnil
      simp at hmem
  · simp

theorem addKind_nodup (s : List VKind) (k : VKind) (h : s.Nodup) : (addKind s k).Nodup := by
  unfold addKind
  split
  · exact h
  · next hmem => simp [List.nodup_append, h, hmem]

theorem addObservation_forall {Q : List VKind → Prop}
    (hQ : ∀ s v, Q s → Q (addKind s v)) (hsing : ∀ v, Q [v]) :
    ∀ (acc : List (String × List VKind)) (k : String) (v : VKind),
      (∀ p ∈ acc, Q p.2) → ∀ p ∈ addObservation acc k v, Q p.2
  | [], k, v, hacc, p, hp => by
    simp only [addObservation, List.mem_singleton] at hp
    subst hp
    exact hsing v
  | (k0, s) :: rest, k, v, hacc, p, hp => by
    unfold addObservation at hp
    split at hp
    · rcases List.mem_cons.mp hp with h1 | h1
      · subst h1
        exact hQ s v (hacc (k0, s) (by simp))
      · exact hacc p (List.mem_cons_of_mem _ h1)
    · rcases List.mem_cons.mp hp with h1 | h1
      · subst h1
        exact hacc (k0, s) (by simp)
      · exact addObservation_forall hQ hsing rest k v
          (fun q hq => hacc q (List.mem_cons_of_mem _ hq)) p h1

theorem foldl_preserve {α β : Type} {P : α → Prop} (f : α → β → α)
    (hf : ∀ a b, P a → P (f a b)) : ∀ (l : List β) (a : α), P a → P (l.foldl f a)
  | [], _, h => h
  | b :: l, a, h => foldl_preserve f hf l (f a b) (hf a b h)

theorem allColumnTypes_wf (records : List Record) :
    ∀ p ∈ allColumnTypes records, p.2 ≠ [] ∧ p.2.Nodup := by
  refine @foldl_preserve _ _
    (fun acc : List (String × List VKind) => ∀ p ∈ acc, p.2 ≠ [] ∧ p.2.Nodup)
    _ ?_ records [] (by simp)
  intro acc r hacc
  refine @foldl_preserve _ _
    (fun acc : List (String × List VKind) => ∀ p ∈ acc, p.2 ≠ [] ∧ p.2.Nodup)
    _ ?_ r acc hacc
  intro acc2 q hacc2
  exact @addObservation_forall (fun x => x ≠ [] ∧ x.Nodup)
    (fun s v hs => ⟨addKind_ne_nil s v, addKind_nodup s v hs.2⟩)
    (fun v => ⟨by simp, by simp⟩) acc2 q.1 (kindOf q.2) hacc2

theorem addObservation_keys_nodup : ∀ (acc : List (String × List VKind)) (k : String) (v : VKind),
    (acc.map (fun p => p.1)).Nodup →
    ((addObservation acc k v).map (fun p => p.1)).Nodup ∧
      (∀ k2, k2 ∈ (addObservation acc k v).map (fun p => p.1) ↔
        k2 = k ∨ k2 ∈ acc.map (fun p => p.1))
  | [], k, v, _ => by simp [addObservation]
  | (k0, s) :: rest, k, v, hnd => by
    unfold addObservation
    split
    · next heq =>
      subst heq
      refine ⟨by simpa using hnd, ?_⟩
      intro k2
      simp only [List.map_cons, List.mem_cons]
      constructor
      · intro h
        rcases h with h | h
        · exact Or.inr (Or.inl h)
        · exact Or.inr (Or.inr h)
      · intro h
        rcases h with h | h | h
        · exact Or.inl h
        · exact Or.inl h
        · exact Or.inr h
    · next hne =>
      simp only [List.map_cons, List.nodup_cons] at hnd
      obtain ⟨hk0, hnd2⟩ := hnd
      obtain ⟨ih1, ih2⟩ := addObservation_keys_nodup rest k v hnd2
      refine ⟨?_, ?_⟩
      · simp only [List.map_cons, List.nodup_cons]
        refine ⟨?_, ih1⟩
        intro hmem
        rcases (ih2 k0).mp hmem with h | h
        · exact hne h
        · exact hk0 h
      · intro k2
        simp only [List.map_cons, List.mem_cons, ih2]
        constructor
        · intro h
          rcases h with h | h | h
          · exact Or.inr (Or.inl h)
          · exact Or.inl h
          · exact Or.inr (Or.inr h)
        · intro h
          rcases h with h | h | h
          · exact Or.inr (Or.inl h)
          · exact Or.inl h
          · exact Or.inr (Or.inr h)

theorem allColumnTypes_keys_nodup (records : List Record) :
    ((allColumnTypes records).map (fun p => p.1)).Nodup := by
  refine @foldl_preserve _ _
    (fun acc : List (String × List VKind) => (acc.map (fun p => p.1)).Nodup)
    _ ?_ records [] (by simp)
  intro acc r hacc
  refine @foldl_preserve _ _
    (fun acc : List (String × List VKind) => (acc.map (fun p => p.1)).Nodup)
    _ ?_ r acc hacc
  intro acc2 q hacc2
  exact (addObservation_keys_nodup acc2 q.1 (kindOf q.2) hacc2).1

theorem eq_singleton_of_mem_nodup (s : List VKind) (a : VKind) (hne : s ≠ [])
    (hn : s.Nodup) (hmem : ∀ x, x ∈ s ↔ x = a) : s = [a] := by
  cases s with
  | nil => exact absurd rfl hne
  | cons x t =>
    have hx : x = a := (hmem x).mp (by simp)
    subst hx
    cases t with
    | nil => rfl
    | cons y t2 =>
      have hy : y = x := ((hmem y).mp (by simp)).trans ((hmem x).mp (by simp)).symm
      subst hy
      simp at hn

theorem exists_cons_cons_of_two_le : ∀ (s : List VKind), 2 ≤ s.length →
    ∃ a b t, s = a :: b :: t
  | [], h => by simp at h
  | [a], h => by simp at h
  | a :: b :: t, _ => ⟨a, b, t, rfl⟩

theorem reduceKinds_cons_cons (a b : VKind) (t : List VKind) :
    reduceKinds (a :: b :: t) =
      (if (a :: b :: t).all (fun x => x == VKind.integer || x == VKind.boolean) = true
       then VKind.integer
       else if (a :: b :: t).all
           (fun x => x == VKind.integer || x == VKind.floating || x == VKind.boolean) = true
       then VKind.floating
       else VKind.text) := rfl

/-- C1: `detect_column_types` assigns every observed field name exactly one
column type — the mapping has duplicate-free keys and, for the kind set
observed for a key, yields exactly `reduceKinds` of that set — and the
widening table holds: observed kinds {integer} give INTEGER,
{integer, boolean} give INTEGER, {integer, floating} give FLOAT,
{integer, boolean, floating} give FLOAT, {text} gives TEXT,
{integer, text} gives TEXT, {null, integer} gives TEXT; a single observed
kind is used directly, with boolean stored as INTEGER. -/
theorem C1_type_widening (records : List Record) (k : String) (s : List VKind)
    (hobs : lookupTy (allColumnTypes records) k = some s) :
    lookupTy (detect_column_types records) k = some (reduceKinds s) ∧
    ((detect_column_types records).map (fun p => p.1)).Nodup ∧
    s ≠ [] ∧ s.Nodup ∧
    (s.toFinset = {VKind.integer} → colTypeKeyword (reduceKinds s) = "INTEGER") ∧
    (s.toFinset = {VKind.integer, VKind.boolean} → colTypeKeyword (reduceKinds s) = "INTEGER") ∧
    (s.toFinset = {VKind.integer, VKind.floating} → colTypeKeyword (reduceKinds s) = "FLOAT") ∧
    (s.toFinset = {VKind.integer, VKind.boolean, VKind.floating} →
      colTypeKeyword (reduceKinds s) = "FLOAT") ∧
    (s.toFinset = {VKind.text} → colTypeKeyword (reduceKinds s) = "TEXT") ∧
    (s.toFinset = {VKind.integer, VKind.text} → colTypeKeyword (reduceKinds s) = "TEXT") ∧
    (s.toFinset = {VKind.null, VKind.integer} → colTypeKeyword (reduceKinds s) = "TEXT") ∧
    (∀ t, s = [t] → reduceKinds s = t) ∧
    colTypeKeyword VKind.boolean = "INTEGER" := by
  obtain ⟨k2, hk2⟩ := lookupTy_mem _ _ _ hobs
  obtain ⟨hsne, hsnd⟩ := allColumnTypes_wf records (k2, s) hk2
  have hkeys : ((detect_column_types records).map (fun p => p.1)).Nodup := by
    have := allColumnTypes_keys_nodup records
    simpa [detect_column_types, List.map_map, Function.comp] using this
  refine ⟨?_, hkeys, hsne, hsnd, ?_, ?_, ?_, ?_, ?_, ?_, ?_, ?_, rfl⟩
  · rw [detect_column_types, lookupTy_map, hobs]
    rfl
  · intro hfin
    have hmem : ∀ x, x ∈ s ↔ x = VKind.integer := by
      intro x
      rw [← List.mem_toFinset, hfin]
      simp
    rw [eq_singleton_of_mem_nodup s _ hsne hsnd hmem]
    rfl
  · intro hfin
    have hmm : ∀ x ∈ s, x = VKind.integer ∨ x = VKind.boolean := by
      intro x hx
      have hx2 : x ∈ s.toFinset := List.mem_toFinset.mpr hx
      rw [hfin] at hx2
      simpa using hx2
    have hlen : 2 ≤ s.length := by
      have hcard := List.toFinset_card_le s
      rw [hfin] at hcard
      have : ({VKind.integer, VKind.boolean} : Finset VKind).card = 2 := by decide
      omega
    obtain ⟨a, b, t, rfl⟩ := exists_cons_cons_of_two_le s hlen
    have h1 : (a :: b :: t).all (fun x => x == VKind.integer || x == VKind.boolean) = true := by
      rw [List.all_eq_true]
      intro x hx
      rcases hmm x hx with rfl | rfl <;> decide
    rw [reduceKinds_cons_cons, if_pos h1]
    rfl
  · intro hfin
    have hmm : ∀ x ∈ s, x = VKind.integer ∨ x = VKind.floating := by
      intro x hx
      have hx2 : x ∈ s.toFinset := List.mem_toFinset.mpr hx
      rw [hfin] at hx2
      simpa using hx2
    have hfl : VKind.floating ∈ s := by
      rw [← List.mem_toFinset, hfin]
      decide
    have hlen : 2 ≤ s.length := by
      have hcard := List.toFinset_card_le s
      rw [hfin] at hcard
      have : ({VKind.integer, VKind.floating} : Finset VKind).card = 2 := by decide
      omega
    obtain ⟨a, b, t, rfl⟩ := exists_cons_cons_of_two_le s hlen
    have h1 : (a :: b :: t).all (fun x => x == VKind.integer || x == VKind.boolean) = false := by
      cases hall : (a :: b :: t).all (fun x => x == VKind.integer || x == VKind.boolean) with
      | false => rfl
      | true => exact absurd (List.all_eq_true.mp hall _ hfl) (by decide)
    have h2 : (a :: b :: t).all
        (fun x => x == VKind.integer || x == VKind.floating || x == VKind.boolean) = true := by
      rw [List.all_eq_true]
      intro x hx
      rcases hmm x hx with rfl | rfl <;> decide
    rw [reduceKinds_cons_cons, if_neg (by simp [h1]), if_pos h2]
    rfl
  · intro hfin
    have hmm : ∀ x ∈ s,
        x = VKind.integer ∨ x = VKind.boolean ∨ x = VKind.floating := by
      intro x hx
      have hx2 : x ∈ s.toFinset := List.mem_toFinset.mpr hx
      rw [hfin] at hx2
      simpa using hx2
    have hfl : VKind.floating ∈ s := by
      rw [← List.mem_toFinset, hfin]
      decide
    have hlen : 2 ≤ s.length := by
      have hcard := List.toFinset_card_le s
      rw [hfin] at hcard
      have : ({VKind.integer, VKind.boolean, VKind.floating} : Finset VKind).card = 3 := by decide
      omega
    obtain ⟨a, b, t, rfl⟩ := exists_cons_cons_of_two_le s hlen
    have h1 : (a :: b :: t).all (fun x => x == VKind.integer || x == VKind.boolean) = false := by
      cases hall : (a :: b :: t).all (fun x => x == VKind.integer || x == VKind.boolean) with
      | false => rfl
      | true => exact absurd (List.all_eq_true.mp hall _ hfl) (by decide)
    have h2 : (a :: b :: t).all
        (fun x => x == VKind.integer || x == VKind.floating || x == VKind.boolean) = true := by
      rw [List.all_eq_true]
      intro x hx
      rcases hmm x hx with rfl | rfl | rfl <;> decide
    rw [reduceKinds_cons_cons, if_neg (by simp [h1]), if_pos h2]
    rfl
  · intro hfin
    have hmem : ∀ x, x ∈ s ↔ x = VKind.text := by
      intro x
      rw [← List.mem_toFinset, hfin]
      simp
    rw [eq_singleton_of_mem_nodup s _ hsne hsnd hmem]
    rfl
  · intro hfin
    have htx : VKind.text ∈ s := by
      rw [← List.mem_toFinset, hfin]
      decide
    have hlen : 2 ≤ s.length := by
      have hcard := List.toFinset_card_le s
      rw [hfin] at hcard
      have : ({VKind.integer, VKind.text} : Finset VKind).card = 2 := by decide
      omega
    obtain ⟨a, b, t, rfl⟩ := exists_cons_cons_of_two_le s hlen
    have h1 : (a :: b :: t).all (fun x => x == VKind.integer || x == VKind.boolean) = false := by
      cases hall : (a :: b :: t).all (fun x => x == VKind.integer || x == VKind.boolean) with
      | false => rfl
      | true => exact absurd (List.all_eq_true.mp hall _ htx) (by decide)
    have h2 : (a :: b :: t).all
        (fun x => x == VKind.integer || x == VKind.floating || x == VKind.boolean) = false := by
      cases hall : (a :: b :: t).all
          (fun x => x == VKind.integer || x == VKind.floating || x == VKind.boolean) with
      | false => rfl
      | true => exact absurd (List.all_eq_true.mp hall _ htx) (by decide)
    rw [reduceKinds_cons_cons, if_neg (by simp [h1]), if_neg (by simp [h2])]
    rfl
  · intro hfin
    have hnl : VKind.null ∈ s := by
      rw [← List.mem_toFinset, hfin]
      decide
    have hlen : 2 ≤ s.length := by
      have hcard := List.toFinset_card_le s
      rw [hfin] at hcard
      have : ({VKind.null, VKind.integer} : Finset VKind).card = 2 := by decide
      omega
    obtain ⟨a, b, t, rfl⟩ := exists_cons_cons_of_two_le s hlen
    have h1 : (a :: b :: t).all (fun x => x == VKind.integer || x == VKind.boolean) = false := by
      cases hall : (a :: b :: t).all (fun x => x == VKind.integer || x == VKind.boolean) with
      | false => rfl
      | true => exact absurd (List.all_eq_true.mp hall _ hnl) (by decide)
    have h2 : (a :: b :: t).all
        (fun x => x == VKind.integer || x == VKind.floating || x == VKind.boolean) = false := by
      cases hall : (a :: b :: t).all
          (fun x => x == VKind.integer || x == VKind.floating || x == VKind.boolean) with
      | false => rfl
      | true => exact absurd (List.all_eq_true.mp hall _ hnl) (by decide)
    rw [reduceKinds_cons_cons, if_neg (by simp [h1]), if_neg (by simp [h2])]
    rfl
  · intro t ht
    subst ht
    rfl

/-- Witness for C1 at a concrete input: a field observed as integer then
boolean. -/
theorem C1_type_widening_witness :
    lookupTy (allColumnTypes [[("a", Value.integer 1)], [("a", Value.boolean true)]]) "a" =
        some [VKind.integer, VKind.boolean] ∧
      lookupTy (detect_column_types [[("a", Value.integer 1)], [("a", Value.boolean true)]]) "a" =
        some (reduceKinds [VKind.integer, VKind.boolean]) :=
  ⟨by decide, (C1_type_widening [[("a", Value.integer 1)], [("a", Value.boolean true)]] "a"
    [VKind.integer, VKind.boolean] (by decide)).1⟩

theorem chunksFuel_congr : ∀ (f1 f2 : Nat) (l : List α) (n : Nat),
    l.length ≤ f1 → l.length ≤ f2 → chunksFuel f1 l n = chunksFuel f2 l n
  | 0, f2, l, n, h1, _ => by
    have hl : l = [] := List.eq_nil_of_length_eq_zero (Nat.le_zero.mp h1)
    subst hl
    cases f2 with
    | zero => rfl
    | succ f2 => cases n <;> rfl
  | _ + 1, 0, l, n, _, h2 => by
    have hl : l = [] := List.eq_nil_of_length_eq_zero (Nat.le_zero.mp h2)
    subst hl
    cases n <;> rfl
  | f1 + 1, f2 + 1, l, n, h1, h2 => by
    cases l with
    | nil => cases n <;> rfl
    | cons a as =>
      cases n with
      | zero => rfl
      | succ n =>
        show _ :: chunksFuel f1 ((a :: as).drop (n + 1)) (n + 1) =
          _ :: chunksFuel f2 ((a :: as).drop (n + 1)) (n + 1)
        rw [chunksFuel_congr f1 f2 ((a :: as).drop (n + 1)) (n + 1)
          (by simp only [List.length_drop, List.length_cons] at h1 ⊢; omega)
          (by simp only [List.length_drop, List.length_cons] at h2 ⊢; omega)]

theorem chunksList_nil (n : Nat) : chunksList ([] : List α) n = [] := by
  cases n <;> rfl

theorem chunksList_zero (l : List α) : chunksList l 0 = [] := by
  cases l <;> rfl

theorem chunksList_cons (a : α) (as : List α) (n : Nat) :
    chunksList (a :: as) (n + 1) =
      (a :: as).take (n + 1) :: chunksList ((a :: as).drop (n + 1)) (n + 1) := by
  show _ :: chunksFuel as.length ((a :: as).drop (n + 1)) (n + 1) = _
  rw [chunksFuel_congr as.length ((a :: as).drop (n + 1)).length ((a :: as).drop (n + 1)) (n + 1)
    (by simp only [List.length_drop, List.length_cons]; omega) le_rfl]
  rfl

theorem chunksList_flatten : ∀ (l : List α) (n : Nat), 1 ≤ n → (chunksList l n).flatten = l
  | [], n, _ => by rw [chunksList_nil]; rfl
  | _ :: _, 0, h => by omega
  | a :: as, n + 1, h => by
    rw [chunksList_cons, List.flatten_cons,
      chunksList_flatten ((a :: as).drop (n + 1)) (n + 1) h, List.take_append_drop]
termination_by l _ _ => l.length
decreasing_by simp only [List.length_drop, List.length_cons]; omega

theorem chunksList_length_le : ∀ (l : List α) (n : Nat), ∀ ch ∈ chunksList l n, ch.length ≤ n
  | [], n, ch, hch => by rw [chunksList_nil] at hch; simp at hch
  | _ :: _, 0, ch, hch => by rw [chunksList_zero] at hch; simp at hch
  | a :: as, n + 1, ch, hch => by
    rw [chunksList_cons] at hch
    rcases List.mem_cons.mp hch with h | h
    · subst h
      simp only [List.length_take, List.length_cons]
      omega
    · exact chunksList_length_le ((a :: as).drop (n + 1)) (n + 1) ch h
termination_by l _ _ _ => l.length
decreasing_by simp only [List.length_drop, List.length_cons]; omega

theorem chunksList_ne_nil (a : α) (as : List α) (n : Nat) (hn : 1 ≤ n) :
    chunksList (a :: as) n ≠ [] := by
  cases n with
  | zero => omega
  | succ n => rw [chunksList_cons]; simp

theorem chunksList_dropLast_length : ∀ (l : List α) (n : Nat), 1 ≤ n →
    ∀ ch ∈ (chunksList l n).dropLast, ch.length = n
  | [], n, _, ch, hch => by rw [chunksList_nil] at hch; simp at hch
  | _ :: _, 0, hn, _, _ => by omega
  | a :: as, n + 1, hn, ch, hch => by
    rw [chunksList_cons] at hch
    cases hrest : chunksList ((a :: as).drop (n + 1)) (n + 1) with
    | nil => rw [hrest] at hch; simp at hch
    | cons c2 cs =>
      rw [hrest, List.dropLast_cons₂] at hch
      rcases List.mem_cons.mp hch with h | h
      · subst h
        have hlen : n + 1 ≤ (a :: as).length := by
          by_contra hlt
          push_neg at hlt
          have hdn : (a :: as).drop (n + 1) = [] := List.drop_eq_nil_of_le (by omega)
          rw [hdn, chunksList_nil] at hrest
          simp at hrest
        simp only [List.length_take, List.length_cons] at hlen ⊢
        omega
      · have hrec := chunksList_dropLast_length ((a :: as).drop (n + 1)) (n + 1) hn ch
        rw [hrest] at hrec
        exact hrec h
termination_by l _ _ _ _ => l.length
decreasing_by simp only [List.length_drop, List.length_cons]; omega

theorem charListLe_total : ∀ (a b : List Char), charListLe a b = true ∨ charListLe b a = true
  | [], _ => Or.inl rfl
  | _ :: _, [] => Or.inr rfl
  | a :: as, b :: bs => by
    rcases Nat.lt_trichotomy a.toNat b.toNat with h | h | h
    · left
      simp [charListLe, h]
    · rcases charListLe_total as bs with ih | ih
      · left
        simp [charListLe, h, ih]
      · right
        simp [charListLe, h, ih]
    · right
      simp [charListLe, h]

theorem charListLe_trans : ∀ (a b c : List Char),
    charListLe a b = true → charListLe b c = true → charListLe a c = true
  | [], _, _, _, _ => rfl
  | _ :: _, [], _, h1, _ => by simp [charListLe] at h1
  | _ :: _, _ :: _, [], _, h2 => by simp [charListLe] at h2
  | a :: as, b :: bs, c :: cs, h1, h2 => by
    unfold charListLe at h1 h2 ⊢
    split_ifs at h1 h2 ⊢ <;>
      first
      | rfl
      | omega
      | (exact charListLe_trans as bs cs h1 h2)
      | (exfalso; omega)

instance : IsTrans String (fun a b => strLe a b = true) :=
  ⟨fun a b c h1 h2 => charListLe_trans a.data b.data c.data h1 h2⟩

instance : IsTotal String (fun a b => strLe a b = true) :=
  ⟨fun a b => charListLe_total a.data b.data⟩

theorem allColumns_sorted (records : List Record) :
    (allColumns records).Pairwise (fun a b => strLe a b = true) :=
  List.sorted_insertionSort _ _

theorem allColumns_nodup (records : List Record) : (allColumns records).Nodup :=
  (List.perm_insertionSort _ _).nodup_iff.mpr (List.nodup_dedup _)

theorem allColumns_mem (records : List Record) (k : String) :
    k ∈ allColumns records ↔ ∃ r ∈ records, ∃ v, (k, v) ∈ r := by
  unfold allColumns
  rw [(List.perm_insertionSort _ _).mem_iff]
  simp only [List.mem_dedup, List.mem_flatten, List.mem_map]
  constructor
  · rintro ⟨l, ⟨r, hr, rfl⟩, hk⟩
    obtain ⟨p, hp, hpk⟩ := List.mem_map.mp hk
    refine ⟨r, hr, p.2, ?_⟩
    have : (p.1, p.2) = p := rfl
    rw [← hpk, this]
    exact hp
  · rintro ⟨r, hr, v, hv⟩
    exact ⟨r.map (fun p => p.1), ⟨r, hr, rfl⟩, List.mem_map.mpr ⟨(k, v), hv, rfl⟩⟩

/-- C3: every chunk statement of one `insert_all` call uses the same column
list, namely `all_columns` — the sorted (lexicographically, duplicate-free)
union of the keys of all records of the full input — and the bound rows,
across all chunks in order, are exactly one row per input record that
binds a value for every column of that list, null for each column the
record lacks. -/
theorem C3_unified_column_list (records : List Record) (tn : String) (up : Bool) (bs : Nat)
    (hne : records ≠ []) (hbs : 1 ≤ bs) :
    (∀ s ∈ insertStmts tn up records bs, stmtColsOf s = allColumns records) ∧
    (allColumns records).Pairwise (fun a b => strLe a b = true) ∧
    (allColumns records).Nodup ∧
    (∀ k, k ∈ allColumns records ↔ ∃ r ∈ records, ∃ v, (k, v) ∈ r) ∧
    ((insertStmts tn up records bs).map stmtRowsOf).flatten =
      records.map (projRecord (allColumns records)) ∧
    (∀ s ∈ insertStmts tn up records bs, ∀ row ∈ stmtRowsOf s,
      row.length = (allColumns records).length) ∧
    (∀ r : Record, ∀ (i : Nat) (k : String), (allColumns records)[i]? = some k →
      rget r k = none →
      (projRecord (allColumns records) r)[i]? = some Value.null) := by
  refine ⟨?_, allColumns_sorted records, allColumns_nodup records, allColumns_mem records, ?_,
    ?_, ?_⟩
  · intro s hs
    simp only [insertStmts, List.mem_map] at hs
    obtain ⟨ch, hch, rfl⟩ := hs
    rfl
  · simp only [insertStmts, List.map_map]
    rw [show (stmtRowsOf ∘ chunkStmt tn up (allColumns records)) =
      fun ch => ch.map (projRecord (allColumns records)) from rfl]
    rw [← List.map_flatten, chunksList_flatten records bs hbs]
  · intro s hs row hrow
    simp only [insertStmts, List.mem_map] at hs
    obtain ⟨ch, hch, rfl⟩ := hs
    simp only [chunkStmt, stmtRowsOf, List.mem_map] at hrow
    obtain ⟨r, hr, rfl⟩ := hrow
    simp [projRecord]
  · intro r i k hik hmiss
    rw [show projRecord (allColumns records) r =
      (allColumns records).map (fun k2 => (rget r k2).getD Value.null) from rfl]
    rw [List.getElem?_map, hik]
    simp [hmiss]

/-- Witness for C3 at a concrete input with two key sets. -/
theorem C3_unified_column_list_witness :
    ([[("b", Value.integer 2)], [("a", Value.integer 1)]] : List Record) ≠ [] ∧
    (∀ s ∈ insertStmts "t" false [[("b", Value.integer 2)], [("a", Value.integer 1)]] 100,
      stmtColsOf s = allColumns [[("b", Value.integer 2)], [("a", Value.integer 1)]]) :=
  ⟨by decide, (C3_unified_column_list [[("b", Value.integer 2)], [("a", Value.integer 1)]]
    "t" false 100 (by decide) (by decide)).1⟩

theorem bool_eq_false {b : Bool} (h : ¬ b = true) : b = false := by
  cases b
  · rfl
  · exact absurd rfl h

theorem except_bind_ok {ε α β : Type} (x : Except ε α) (f : α → Except ε β) (b : β)
    (h : (x >>= f) = .ok b) : ∃ a, x = .ok a ∧ f a = .ok b := by
  cases x with
  | error e => simp [Bind.bind, Except.bind] at h
  | ok a => exact ⟨a, rfl, by simpa [Bind.bind, Except.bind] using h⟩

theorem execStmt_insert_ok_inv (db : DBState) (up : Bool) (tn : String) (cols : List String)
    (rows : List (List Value)) (db2 : DBState) (n : Nat)
    (h : execStmt db (.insert up tn cols rows) = .ok (db2, n)) :
    ∃ t t2, getTable db tn = some t ∧ cols.isEmpty = false ∧
      (cols.any (fun c => !(t.cols.any (fun tc => tc.1 == c)))) = false ∧
      insertRows t up (rows.map (fun r => fullRow t.cols cols r)) = .ok t2 ∧
      db2 = setTable db tn t2 ∧ n = rows.length := by
  simp only [execStmt] at h
  cases hT : getTable db tn with
  | none => rw [hT] at h; simp at h
  | some t =>
    rw [hT] at h
    dsimp only at h
    split_ifs at h with h1 h2
    cases hIR : insertRows t up (rows.map (fun r => fullRow t.cols cols r)) with
    | error e => rw [hIR] at h; simp at h
    | ok t2 =>
      rw [hIR] at h
      simp only [Except.ok.injEq, Prod.mk.injEq] at h
      exact ⟨t, t2, rfl, bool_eq_false h1, bool_eq_false h2, hIR, h.1.symm, h.2.symm⟩

theorem execStmt_insert_ok_mk (db : DBState) (up : Bool) (tn : String) (cols : List String)
    (rows : List (List Value)) (t t2 : TableData)
    (hT : getTable db tn = some t) (h1 : cols.isEmpty = false)
    (h2 : (cols.any (fun c => !(t.cols.any (fun tc => tc.1 == c)))) = false)
    (hIR : insertRows t up (rows.map (fun r => fullRow t.cols cols r)) = .ok t2) :
    execStmt db (.insert up tn cols rows) = .ok (setTable db tn t2, rows.length) := by
  simp only [execStmt, hT, h1, h2, hIR]
  rfl

theorem execStmt_insert_len (db : DBState) (up : Bool) (tn : String) (cols : List String)
    (rows : List (List Value)) (db2 : DBState) (r : Nat)
    (h : execStmt db (.insert up tn cols rows) = .ok (db2, r)) : r = rows.length := by
  obtain ⟨t, t2, _, _, _, _, _, hn⟩ := execStmt_insert_ok_inv db up tn cols rows db2 r h
  exact hn

theorem insertRows_append (t : TableData) (bR : Bool) (R S : List (List Value)) :
    insertRows t bR (R ++ S) =
      insertRows t bR R >>= fun t1 => insertRows t1 bR S := by
  simp [insertRows, List.foldlM_append]

theorem execStmt_insert_split (db : DBState) (up : Bool) (tn : String) (cols : List String)
    (R S : List (List Value)) (db2 : DBState) (n : Nat)
    (hRS : execStmt db (.insert up tn cols (R ++ S)) = .ok (db2, n)) :
    ∃ db1, execStmt db (.insert up tn cols R) = .ok (db1, R.length) ∧
      execStmt db1 (.insert up tn cols S) = .ok (db2, S.length) := by
  obtain ⟨t, t2, hT, h1, h2, hIR, hdb2, _⟩ :=
    execStmt_insert_ok_inv db up tn cols (R ++ S) db2 n hRS
  rw [List.map_append, insertRows_append] at hIR
  obtain ⟨t1, hIR1, hIR2⟩ := except_bind_ok _ _ _ hIR
  have hcols1 : t1.cols = t.cols ∧ t1.pk = t.pk := insertRows_cols _ t t1 up hIR1
  refine ⟨setTable db tn t1, execStmt_insert_ok_mk db up tn cols R t t1 hT h1 h2 hIR1, ?_⟩
  have hT1 : getTable (setTable db tn t1) tn = some t1 := getTable_setTable db tn t t1 hT
  have h2b : (cols.any (fun c => !(t1.cols.any (fun tc => tc.1 == c)))) = false := by
    rw [hcols1.1]
    exact h2
  have hIR2b : insertRows t1 up (S.map (fun r => fullRow t1.cols cols r)) = .ok t2 := by
    rw [hcols1.1]
    exact hIR2
  have hmk := execStmt_insert_ok_mk (setTable db tn t1) up tn cols S t1 t2 hT1 h1 h2b hIR2b
  rw [hmk, setTable_setTable, hdb2]

theorem execStmt_insert_append (db db1 db2 : DBState) (up : Bool) (tn : String)
    (cols : List String) (R S : List (List Value))
    (hR : execStmt db (.insert up tn cols R) = .ok (db1, R.length))
    (hS : execStmt db1 (.insert up tn cols S) = .ok (db2, S.length)) :
    execStmt db (.insert up tn cols (R ++ S)) = .ok (db2, (R ++ S).length) := by
  obtain ⟨t, t1, hT, h1, h2, hIR1, hdb1, _⟩ :=
    execStmt_insert_ok_inv db up tn cols R db1 R.length hR
  obtain ⟨t1x, t2, hT1, h1x, h2x, hIR2, hdb2, _⟩ :=
    execStmt_insert_ok_inv db1 up tn cols S db2 S.length hS
  have hT1b : getTable db1 tn = some t1 := by
    rw [hdb1]
    exact getTable_setTable db tn t t1 hT
  have ht1x : t1x = t1 := by
    rw [hT1b] at hT1
    injection hT1 with hh
    exact hh.symm
  rw [ht1x] at hIR2
  have hcols1 : t1.cols = t.cols ∧ t1.pk = t.pk := insertRows_cols _ t t1 up hIR1
  have hIR2b : insertRows t1 up (S.map (fun r => fullRow t.cols cols r)) = .ok t2 := by
    rw [← hcols1.1]
    exact hIR2
  have hIRall : insertRows t up ((R ++ S).map (fun r => fullRow t.cols cols r)) = .ok t2 := by
    rw [List.map_append, insertRows_append, hIR1]
    simpa [Bind.bind, Except.bind] using hIR2b
  have hmk := execStmt_insert_ok_mk db up tn cols (R ++ S) t t2 hT h1 h2 hIRall
  rw [hmk, hdb2, hdb1, setTable_setTable]

theorem runChunkStmts_error : ∀ (stmts : List Stmt) (c : Conn) (acc : Option Nat) (c2 : Conn)
    (e : Err), runChunkStmts c stmts acc = (c2, .error e) → e ≠ Err.nameError →
    ∃ i s cPre, stmts[i]? = some s ∧ runPrefixOk c (stmts.take i) = some cPre ∧
      conn_execute cPre s = (cPre, .error e) ∧ c2 = cPre
  | [], c, none, c2, e, h, hne => by
    simp only [runChunkStmts, Prod.mk.injEq, Except.error.injEq] at h
    exact absurd h.2.symm hne
  | [], c, some r0, c2, e, h, _ => by
    simp only [runChunkStmts, Prod.mk.injEq] at h
    exact absurd h.2 (by simp)
  | s :: rest, c, acc, c2, e, h, hne => by
    simp only [runChunkStmts] at h
    rcases hE : conn_execute c s with ⟨cE, rE⟩
    rw [hE] at h
    cases rE with
    | error e0 =>
      simp only [Prod.mk.injEq, Except.error.injEq] at h
      obtain ⟨hc2, he⟩ := h
      have hfst : cE = c := by
        cases hex : execStmt c.db s with
        | error e1 =>
          rw [conn_execute_err c s e1 hex] at hE
          injection hE with hE1 hE2
          exact hE1.symm
        | ok pr =>
          obtain ⟨dbx, rx⟩ := pr
          obtain ⟨_, hsnd⟩ := conn_execute_ok_parts c s dbx rx hex
          rw [hE] at hsnd
          simp at hsnd
      subst he
      refine ⟨0, s, c, by simp, rfl, ?_, ?_⟩
      · rw [hE, hfst]
      · rw [← hc2, hfst]
    | ok r0 =>
      obtain ⟨i, s2, cPre, hidx, hpre, hfail, hc2⟩ :=
        runChunkStmts_error rest (conn_commit cE) (some r0) c2 e h hne
      refine ⟨i + 1, s2, cPre, by simpa using hidx, ?_, hfail, hc2⟩
      rw [List.take_succ_cons]
      rw [show runPrefixOk c (s :: rest.take i) =
        runPrefixOk (conn_commit cE) (rest.take i) from by simp only [runPrefixOk, hE]]
      exact hpre

theorem runChunkStmts_ok_prefix : ∀ (stmts : List Stmt) (c : Conn) (acc : Option Nat) (c2 : Conn)
    (r : Nat), runChunkStmts c stmts acc = (c2, .ok r) →
    runPrefixOk c stmts = some c2 ∧
      ((stmts = [] ∧ acc = some r) ∨
       ∃ s cs, stmts.getLast? = some s ∧ (conn_execute cs s).2 = .ok r)
  | [], c, none, c2, r, h => by
    simp only [runChunkStmts, Prod.mk.injEq] at h
    exact absurd h.2 (by simp)
  | [], c, some r0, c2, r, h => by
    simp only [runChunkStmts, Prod.mk.injEq, Except.ok.injEq] at h
    obtain ⟨h1, h2⟩ := h
    subst h1
    subst h2
    exact ⟨rfl, Or.inl ⟨rfl, rfl⟩⟩
  | s :: rest, c, acc, c2, r, h => by
    simp only [runChunkStmts] at h
    rcases hE : conn_execute c s with ⟨cE, rE⟩
    rw [hE] at h
    cases rE with
    | error e0 =>
      simp only [Prod.mk.injEq] at h
      exact absurd h.2 (by simp)
    | ok r0 =>
      obtain ⟨hpre, hlast⟩ := runChunkStmts_ok_prefix rest (conn_commit cE) (some r0) c2 r h
      refine ⟨by simp only [runPrefixOk, hE]; exact hpre, ?_⟩
      rcases hlast with ⟨hnil, hacc⟩ | ⟨s2, cs, hl, hr⟩
      · subst hnil
        refine Or.inr ⟨s, c, rfl, ?_⟩
        rw [hE]
        injection hacc with h3
        rw [h3]
      · refine Or.inr ⟨s2, cs, ?_, hr⟩
        cases rest with
        | nil => simp at hl
        | cons s3 rest2 => rw [List.getLast?_cons_cons]; exact hl

theorem runPrefixOk_committed : ∀ (stmts : List Stmt) (c : Conn) (c2 : Conn),
    stmts ≠ [] → runPrefixOk c stmts = some c2 → c2.durable = c2.db ∧ c2.txnOpen = false
  | [], _, _, hne, _ => absurd rfl hne
  | s :: rest, c, c2, _, h => by
    simp only [runPrefixOk] at h
    rcases hE : conn_execute c s with ⟨cE, rE⟩
    rw [hE] at h
    cases rE with
    | error e => simp at h
    | ok r =>
      cases rest with
      | nil =>
        simp only [runPrefixOk, Option.some.injEq] at h
        subst h
        exact ⟨rfl, rfl⟩
      | cons s2 rest2 =>
        exact runPrefixOk_committed (s2 :: rest2) (conn_commit cE) c2 (by simp) h

/-- C5: `insert_all` commits once after each chunk: on an error that is not
the zero-chunk return failure, there is a chunk index i such that the
statements before i all executed and committed (`runPrefixOk`), chunk i's
statement failed on that committed state leaving it unchanged, and the
returned connection is exactly that state — chunks before i stay durably
committed, chunks after i were never attempted, nothing is rolled back; on
success every chunk committed and the returned result is the row count of
the last chunk's execution only. -/
theorem C5_per_chunk_commit (c : Conn) (h : TableHandle) (records : List Record)
    (pk : Option String) (fks : List FKSpec) (up : Bool) (bs : Nat)
    (hx : h.tblExists = true) :
    (∀ e, (Table.insert_all c h records pk fks up bs).2.2 = .error e → e ≠ Err.nameError →
      ∃ i s cPre, (insertStmts h.name up records bs)[i]? = some s ∧
        runPrefixOk c ((insertStmts h.name up records bs).take i) = some cPre ∧
        conn_execute cPre s = (cPre, .error e) ∧
        (Table.insert_all c h records pk fks up bs).1 = cPre) ∧
    (∀ r, (Table.insert_all c h records pk fks up bs).2.2 = .ok r →
      runPrefixOk c (insertStmts h.name up records bs) =
          some (Table.insert_all c h records pk fks up bs).1 ∧
        (Table.insert_all c h records pk fks up bs).1.durable =
          (Table.insert_all c h records pk fks up bs).1.db ∧
        (Table.insert_all c h records pk fks up bs).1.txnOpen = false ∧
        ∃ lastCh, (chunksList records bs).getLast? = some lastCh ∧ r = lastCh.length) := by
  have hred : Table.insert_all c h records pk fks up bs =
      ((runChunkStmts c (insertStmts h.name up records bs) none).1, h,
       (runChunkStmts c (insertStmts h.name up records bs) none).2) := by
    simp [Table.insert_all, hx]
  rcases hrun : runChunkStmts c (insertStmts h.name up records bs) none with ⟨c3, res⟩
  constructor
  · intro e herr hne
    rw [hred, hrun] at herr
    simp only at herr
    subst herr
    obtain ⟨i, s, cPre, hidx, hpre, hfail, hc3⟩ :=
      runChunkStmts_error (insertStmts h.name up records bs) c none c3 e hrun hne
    refine ⟨i, s, cPre, hidx, hpre, hfail, ?_⟩
    rw [hred, hrun]
    exact hc3
  · intro r hok2
    rw [hred, hrun] at hok2
    simp only at hok2
    subst hok2
    obtain ⟨hpre, hlast⟩ :=
      runChunkStmts_ok_prefix (insertStmts h.name up records bs) c none c3 r hrun
    rcases hlast with ⟨hnil, hacc⟩ | ⟨s, cs, hl, hr⟩
    · exact absurd hacc (by simp)
    · have hstne : insertStmts h.name up records bs ≠ [] := by
        intro hcontr
        rw [hcontr] at hl
        simp at hl
      obtain ⟨hdur, htxn⟩ :=
        runPrefixOk_committed (insertStmts h.name up records bs) c c3 hstne hpre
      have hmap : (insertStmts h.name up records bs).getLast? =
          ((chunksList records bs).getLast?).map
            (chunkStmt h.name up (allColumns records)) := by
        simp [insertStmts, List.getLast?_map]
      rw [hmap] at hl
      cases hlc : (chunksList records bs).getLast? with
      | none => rw [hlc] at hl; simp at hl
      | some lastCh =>
        rw [hlc] at hl
        simp only [Option.map_some', Option.some.injEq] at hl
        subst hl
        refine ⟨by rw [hred, hrun]; exact hpre, by rw [hred, hrun]; exact hdur,
          by rw [hred, hrun]; exact htxn, lastCh, rfl, ?_⟩
        rcases hE2 : conn_execute cs (chunkStmt h.name up (allColumns records) lastCh)
          with ⟨cx, rx⟩
        rw [hE2] at hr
        simp only at hr
        subst hr
        cases hex : execStmt cs.db (chunkStmt h.name up (allColumns records) lastCh) with
        | error e1 =>
          rw [conn_execute_err cs _ e1 hex] at hE2
          injection hE2 with hE2a hE2b
          simp at hE2b
        | ok pr =>
          obtain ⟨dbx, nx⟩ := pr
          obtain ⟨_, hsnd⟩ := conn_execute_ok_parts cs _ dbx nx hex
          rw [hE2] at hsnd
          simp only [Except.ok.injEq] at hsnd
          have hlen2 := execStmt_insert_len cs.db up h.name (allColumns records)
            (lastCh.map (projRecord (allColumns records))) dbx nx hex
          rw [hsnd, hlen2]
          simp

/-- Witness for C5: a two-chunk run whose second chunk violates the primary
key, leaving the first chunk durably committed. -/
theorem C5_per_chunk_commit_witness :
    ∃ i s cPre,
      (insertStmts "t" false [[("id", Value.integer 1)], [("id", Value.integer 1)]] 1)[i]? =
          some s ∧
      runPrefixOk (Database.create_table emptyConn "t" [("id", VKind.integer)] (some "id")).1
        ((insertStmts "t" false [[("id", Value.integer 1)], [("id", Value.integer 1)]] 1).take
          i) = some cPre ∧
      conn_execute cPre s = (cPre, .error (Err.writeError "UNIQUE constraint failed")) ∧
      (Table.insert_all
          (Database.create_table emptyConn "t" [("id", VKind.integer)] (some "id")).1
          ⟨"t", true⟩ [[("id", Value.integer 1)], [("id", Value.integer 1)]]
          none [] false 1).1 = cPre :=
  (C5_per_chunk_commit
      (Database.create_table emptyConn "t" [("id", VKind.integer)] (some "id")).1
      ⟨"t", true⟩ [[("id", Value.integer 1)], [("id", Value.integer 1)]] none [] false 1
      rfl).1 (Err.writeError "UNIQUE constraint failed") (by decide) (by decide)

theorem runChunkStmts_cons_ok (c : Conn) (s : Stmt) (rest : List Stmt) (acc : Option Nat)
    (cE : Conn) (r0 : Nat) (hE : conn_execute c s = (cE, .ok r0)) :
    runChunkStmts c (s :: rest) acc = runChunkStmts (conn_commit cE) rest (some r0) := by
  simp only [runChunkStmts, hE]

theorem runChunkStmts_cons_err (c : Conn) (s : Stmt) (rest : List Stmt) (acc : Option Nat)
    (cE : Conn) (e : Err) (hE : conn_execute c s = (cE, .error e)) :
    runChunkStmts c (s :: rest) acc = (cE, .error e) := by
  simp only [runChunkStmts, hE]

theorem runChunks_ok_combined (up : Bool) (tn : String) (cols : List String) :
    ∀ (chks : List (List (List Value))) (c : Conn) (acc : Option Nat) (c2 : Conn) (r : Nat),
    chks ≠ [] →
    runChunkStmts c (chks.map (fun ch => Stmt.insert up tn cols ch)) acc = (c2, .ok r) →
    ∃ db2, execStmt c.db (.insert up tn cols chks.flatten) = .ok (db2, chks.flatten.length) ∧
      c2 = ⟨db2, db2, false⟩
  | [], _, _, _, _, hne, _ => absurd rfl hne
  | [ch], c, acc, c2, r, _, h => by
    rcases hE : conn_execute c (Stmt.insert up tn cols ch) with ⟨cE, rE⟩
    cases rE with
    | error e0 =>
      rw [List.map_cons, List.map_nil, runChunkStmts_cons_err c _ [] acc cE e0 hE] at h
      simp at h
    | ok r0 =>
      rw [List.map_cons, List.map_nil, runChunkStmts_cons_ok c _ [] acc cE r0 hE] at h
      simp only [runChunkStmts, Prod.mk.injEq, Except.ok.injEq] at h
      obtain ⟨hc2, hr⟩ := h
      cases hex : execStmt c.db (Stmt.insert up tn cols ch) with
      | error e1 =>
        rw [conn_execute_err _ _ _ hex] at hE
        injection hE with h1 h2
        simp at h2
      | ok pr =>
        obtain ⟨dbx, rx⟩ := pr
        have hconnE : conn_execute c (Stmt.insert up tn cols ch) =
            (⟨dbx, c.durable, true⟩, .ok rx) := by
          simp [conn_execute, hex, isDML]
        rw [hconnE] at hE
        injection hE with h1 h2
        have hrx := execStmt_insert_len c.db up tn cols ch dbx rx hex
        refine ⟨dbx, ?_, ?_⟩
        · rw [show ([ch] : List (List (List Value))).flatten = ch from by simp]
          rw [← hrx]
          exact hex
        · rw [← hc2, ← h1]
          rfl
  | ch :: ch2 :: rest, c, acc, c2, r, _, h => by
    rcases hE : conn_execute c (Stmt.insert up tn cols ch) with ⟨cE, rE⟩
    cases rE with
    | error e0 =>
      rw [List.map_cons, runChunkStmts_cons_err c _ _ acc cE e0 hE] at h
      simp at h
    | ok r0 =>
      rw [List.map_cons, runChunkStmts_cons_ok c _ _ acc cE r0 hE] at h
      cases hex : execStmt c.db (Stmt.insert up tn cols ch) with
      | error e1 =>
        rw [conn_execute_err _ _ _ hex] at hE
        injection hE with h1 h2
        simp at h2
      | ok pr =>
        obtain ⟨dbx, rx⟩ := pr
        have hconnE : conn_execute c (Stmt.insert up tn cols ch) =
            (⟨dbx, c.durable, true⟩, .ok rx) := by
          simp [conn_execute, hex, isDML]
        rw [hconnE] at hE
        injection hE with h1 h2
        rw [← h1] at h
        obtain ⟨db2, hcomb, hc2⟩ := runChunks_ok_combined up tn cols (ch2 :: rest)
          (conn_commit ⟨dbx, c.durable, true⟩) (some r0) c2 r (by simp) h
        have hrx := execStmt_insert_len c.db up tn cols ch dbx rx hex
        rw [hrx] at hex
        have hS : execStmt dbx (.insert up tn cols ((ch2 :: rest).flatten)) =
            .ok (db2, ((ch2 :: rest).flatten).length) := hcomb
        have happ := execStmt_insert_append c.db dbx db2 up tn cols ch
          ((ch2 :: rest).flatten) hex hS
        refine ⟨db2, ?_, hc2⟩
        rw [show ((ch :: ch2 :: rest).flatten) = ch ++ (ch2 :: rest).flatten from by simp]
        exact happ

theorem combined_ok_runChunks (up : Bool) (tn : String) (cols : List String) :
    ∀ (chks : List (List (List Value))) (c : Conn) (acc : Option Nat) (db2 : DBState) (n : Nat),
    chks ≠ [] →
    execStmt c.db (.insert up tn cols chks.flatten) = .ok (db2, n) →
    ∃ r, runChunkStmts c (chks.map (fun ch => Stmt.insert up tn cols ch)) acc =
      (⟨db2, db2, false⟩, .ok r)
  | [], _, _, _, _, hne, _ => absurd rfl hne
  | [ch], c, acc, db2, n, _, hex => by
    rw [show ([ch] : List (List (List Value))).flatten = ch from by simp] at hex
    have hconnE : conn_execute c (Stmt.insert up tn cols ch) =
        (⟨db2, c.durable, true⟩, .ok n) := by
      simp [conn_execute, hex, isDML]
    refine ⟨n, ?_⟩
    rw [List.map_cons, List.map_nil, runChunkStmts_cons_ok c _ [] acc _ n hconnE]
    rfl
  | ch :: ch2 :: rest, c, acc, db2, n, _, hex => by
    rw [show ((ch :: ch2 :: rest).flatten) = ch ++ (ch2 :: rest).flatten from by simp] at hex
    obtain ⟨db1, hR, hS⟩ := execStmt_insert_split c.db up tn cols ch ((ch2 :: rest).flatten)
      db2 n hex
    have hconnE : conn_execute c (Stmt.insert up tn cols ch) =
        (⟨db1, c.durable, true⟩, .ok ch.length) := by
      simp [conn_execute, hR, isDML]
    obtain ⟨r2, hrun2⟩ := combined_ok_runChunks up tn cols (ch2 :: rest)
      (conn_commit ⟨db1, c.durable, true⟩) (some ch.length) db2
      ((ch2 :: rest).flatten).length (by simp) hS
    refine ⟨r2, ?_⟩
    rw [List.map_cons, runChunkStmts_cons_ok c _ _ acc _ ch.length hconnE]
    exact hrun2

/-- C4 counterexample: 2 records with the same primary key, no upsert.
With batch size 1, chunk 1 commits and chunk 2 fails, leaving one durable
row; with batch size 2 the single statement fails atomically, leaving no
row — the final table contents differ between the two batch sizes. -/
theorem C4_counterexample :
    (getTable (Table.insert_all emptyConn (Table.init emptyConn "t")
          [[("id", Value.integer 1)], [("id", Value.integer 1)]] (some "id") [] false
          1).1.durable "t").map TableData.rows = some [[Value.integer 1]] ∧
    (getTable (Table.insert_all emptyConn (Table.init emptyConn "t")
          [[("id", Value.integer 1)], [("id", Value.integer 1)]] (some "id") [] false
          2).1.durable "t").map TableData.rows = some ([] : List (List Value)) ∧
    ¬ ((Table.insert_all emptyConn (Table.init emptyConn "t")
          [[("id", Value.integer 1)], [("id", Value.integer 1)]] (some "id") [] false
          1).1.durable =
        (Table.insert_all emptyConn (Table.init emptyConn "t")
          [[("id", Value.integer 1)], [("id", Value.integer 1)]] (some "id") [] false
          2).1.durable) := by
  decide

/-- C4 (amended): provided the run raises no error, the final connection
state — hence the final table contents — and the returned handle are the
same for any two batch sizes at least 1 (the run with the other batch size
then also succeeds); and chunks are consecutive sub-lists of at most
batchSize records preserving the original order, with every chunk except
possibly the last of exactly batchSize records. -/
theorem C4_batch_size_transparency (c : Conn) (h : TableHandle) (records : List Record)
    (pk : Option String) (fks : List FKSpec) (up : Bool) (bs1 bs2 : Nat)
    (hb1 : 1 ≤ bs1) (hb2 : 1 ≤ bs2)
    (hok : exOk (Table.insert_all c h records pk fks up bs1).2.2 = true) :
    exOk (Table.insert_all c h records pk fks up bs2).2.2 = true ∧
    (Table.insert_all c h records pk fks up bs1).1 =
      (Table.insert_all c h records pk fks up bs2).1 ∧
    (Table.insert_all c h records pk fks up bs1).2.1 =
      (Table.insert_all c h records pk fks up bs2).2.1 ∧
    (chunksList records bs1).flatten = records ∧
    (∀ ch ∈ chunksList records bs1, ch.length ≤ bs1) ∧
    (∀ ch ∈ (chunksList records bs1).dropLast, ch.length = bs1) := by
  have hshape : (chunksList records bs1).flatten = records ∧
      (∀ ch ∈ chunksList records bs1, ch.length ≤ bs1) ∧
      (∀ ch ∈ (chunksList records bs1).dropLast, ch.length = bs1) :=
    ⟨chunksList_flatten records bs1 hb1, chunksList_length_le records bs1,
      chunksList_dropLast_length records bs1 hb1⟩
  rcases hstep : (if h.tblExists then (c, h, Except.ok ())
      else Table.create c h (detect_column_types records) pk fks) with ⟨cA, hA, resA⟩
  have hred : ∀ bs, Table.insert_all c h records pk fks up bs =
      (match resA with
       | .error e => (cA, hA, Except.error e)
       | .ok _ => ((runChunkStmts cA (insertStmts hA.name up records bs) none).1, hA,
                   (runChunkStmts cA (insertStmts hA.name up records bs) none).2)) := by
    intro bs
    simp only [Table.insert_all, hstep]
    cases resA <;> rfl
  cases resA with
  | error e =>
    rw [hred bs1] at hok
    simp [exOk] at hok
  | ok u =>
    cases records with
    | nil =>
      rw [hred bs1] at hok
      simp [insertStmts, chunksList_nil, runChunkStmts, exOk] at hok
    | cons r0 rs =>
      rw [hred bs1] at hok
      simp only at hok
      rcases hrun1 : runChunkStmts cA (insertStmts hA.name up (r0 :: rs) bs1) none
        with ⟨c3, res3⟩
      rw [hrun1] at hok
      cases res3 with
      | error e => simp [exOk] at hok
      | ok r1 =>
        have hmap1 : insertStmts hA.name up (r0 :: rs) bs1 =
            ((chunksList (r0 :: rs) bs1).map
              (List.map (projRecord (allColumns (r0 :: rs))))).map
              (fun rows => Stmt.insert up hA.name (allColumns (r0 :: rs)) rows) := by
          simp only [insertStmts, List.map_map]
          rfl
        have hmap2 : insertStmts hA.name up (r0 :: rs) bs2 =
            ((chunksList (r0 :: rs) bs2).map
              (List.map (projRecord (allColumns (r0 :: rs))))).map
              (fun rows => Stmt.insert up hA.name (allColumns (r0 :: rs)) rows) := by
          simp only [insertStmts, List.map_map]
          rfl
        rw [hmap1] at hrun1
        obtain ⟨db2, hcomb, hc3⟩ := runChunks_ok_combined up hA.name (allColumns (r0 :: rs))
          ((chunksList (r0 :: rs) bs1).map (List.map (projRecord (allColumns (r0 :: rs)))))
          cA none c3 r1
          (by
            intro hcontr
            exact chunksList_ne_nil r0 rs bs1 hb1 (List.map_eq_nil.mp hcontr))
          hrun1
        rw [show ((chunksList (r0 :: rs) bs1).map
            (List.map (projRecord (allColumns (r0 :: rs))))).flatten =
            (r0 :: rs).map (projRecord (allColumns (r0 :: rs))) from by
          rw [← List.map_flatten, chunksList_flatten (r0 :: rs) bs1 hb1]] at hcomb
        obtain ⟨r2, hrun2⟩ := combined_ok_runChunks up hA.name (allColumns (r0 :: rs))
          ((chunksList (r0 :: rs) bs2).map (List.map (projRecord (allColumns (r0 :: rs)))))
          cA none db2 ((r0 :: rs).map (projRecord (allColumns (r0 :: rs)))).length
          (by
            intro hcontr
            exact chunksList_ne_nil r0 rs bs2 hb2 (List.map_eq_nil.mp hcontr))
          (by
            rw [show ((chunksList (r0 :: rs) bs2).map
                (List.map (projRecord (allColumns (r0 :: rs))))).flatten =
                (r0 :: rs).map (projRecord (allColumns (r0 :: rs))) from by
              rw [← List.map_flatten, chunksList_flatten (r0 :: rs) bs2 hb2]]
            exact hcomb)
        refine ⟨?_, ?_, ?_, hshape.1, hshape.2.1, hshape.2.2⟩
        · rw [hred bs2]
          simp only
          rw [hmap2, hrun2]
          rfl
        · rw [hred bs1, hred bs2]
          simp only
          rw [hmap1, hrun1, hmap2, hrun2, hc3]
        · rw [hred bs1, hred bs2]

set_option maxRecDepth 100000 in
/-- Witness for C4's amended theorem at the spec's 250-record instance:
batch size 100 (3 chunks) against batch size 1000 (1 chunk). -/
theorem C4_batch_size_transparency_witness :
    (Table.insert_all emptyConn (Table.init emptyConn "t")
        ((List.range 250).map (fun i => [("n", Value.integer (Int.ofNat i))])) none [] false
        100).1 =
      (Table.insert_all emptyConn (Table.init emptyConn "t")
        ((List.range 250).map (fun i => [("n", Value.integer (Int.ofNat i))])) none [] false
        1000).1 :=
  (C4_batch_size_transparency emptyConn (Table.init emptyConn "t")
      ((List.range 250).map (fun i => [("n", Value.integer (Int.ofNat i))])) none [] false
      100 1000 (by omega) (by omega) (by decide)).2.1

end SqliteUtils
